import Mathlib

/-!
# Verification of the L8 Smartlight protocol engine

A shallow embedding of the byte-level protocol code of the
`node-l8smartlight` repository (`src/Library/MatrixBuilder.js`, which holds
the `L8` connection class, and `src/Library/GridBuilder.js`), together with
proofs about it.

Buffers are modelled as `List Nat` whose entries are byte values; where the
JavaScript code writes a value into a `Buffer` cell the embedding takes the
value modulo 256, matching node `Buffer` assignment truncation.  The
receive path is modelled twice: `feedAll` is the unbounded logical view of
the byte stream, used as a proof-side abstraction, and
`onResponseFixed`/`feedAllFixed` model the actual fixed 4096-byte
`receiveBuffer_` with node's silent `Buffer.copy` truncation; a simulation
theorem transfers results from the former to the latter while the buffer
never overflows.
-/

namespace L8Spec

/-! ## CRC-8

The repository delegates to the external `crc` npm package (`CRC.crc8`),
which computes the standard CRC-8 (polynomial 0x07, initial value 0,
no reflection, no final xor) of a byte buffer.  The package renders the
result as a canonical two-digit hex string; both `buildFrame` and
`parseFrames_` only ever compare or store that string as a single byte, so
the embedding works with the byte value directly. -/

/-- One shift-and-reduce round of CRC-8 with polynomial 0x07. -/
def crc8Round (c : Nat) : Nat :=
  if 128 ≤ c % 256 then (((c % 256) * 2) ^^^ 0x07) % 256
  else ((c % 256) * 2) % 256

/-- Fold one message byte into the CRC state: xor it in, then run eight
shift-and-reduce rounds. -/
def crc8Byte (c b : Nat) : Nat :=
  crc8Round (crc8Round (crc8Round (crc8Round
    (crc8Round (crc8Round (crc8Round (crc8Round ((c ^^^ b) % 256))))))))

/-- CRC-8 of a byte sequence, starting from 0 (the value `CRC.crc8` yields). -/
def crc8 (l : List Nat) : Nat := l.foldl crc8Byte 0

theorem crc8Round_lt (c : Nat) : crc8Round c < 256 := by
  unfold crc8Round
  split <;> exact Nat.mod_lt _ (by omega)

theorem crc8Byte_lt (c b : Nat) : crc8Byte c b < 256 := by
  unfold crc8Byte
  exact crc8Round_lt _

theorem crc8_foldl_lt (l : List Nat) (c : Nat) (h : c < 256) :
    l.foldl crc8Byte c < 256 := by
  induction l generalizing c with
  | nil => exact h
  | cons a l ih => exact ih _ (crc8Byte_lt _ _)

theorem crc8_lt (l : List Nat) : crc8 l < 256 :=
  crc8_foldl_lt l 0 (by omega)

/-! ## Frame encoder

`L8.prototype.buildFrame(command, parametersBuffer)`
(src/Library/MatrixBuilder.js, lines 769-805): the full payload is the
command byte followed by the parameter bytes; the frame is
`0xAA 0x55 | payload length (1 byte) | payload | CRC8(payload)`.
Writing `command` and the payload length into one-byte buffers truncates
them modulo 256 (node `Buffer` cell assignment); the function performs no
other validation and has no failure path. -/

/-- Embeds `L8.prototype.buildFrame`; the full payload is
`command % 256 :: params`. -/
def buildFrame (command : Nat) (params : List Nat) : List Nat :=
  0xAA :: 0x55 :: ((command % 256 :: params).length % 256) ::
    ((command % 256 :: params) ++ [crc8 (command % 256 :: params)])

theorem buildFrame_length (command : Nat) (params : List Nat) :
    (buildFrame command params).length = params.length + 5 := by
  simp [buildFrame]

/-! ## Frame decoder

`L8.prototype.parseFrames_(receiveBuffer)`
(src/Library/MatrixBuilder.js, lines 534-592): a loop that repeatedly
inspects the front of the receive buffer.  Fewer than 4 buffered bytes, or
fewer than `2 + 1 + length + 1` bytes, stop the loop without error; magic
byte or checksum mismatches throw (`EvalError`), killing the connection;
otherwise one frame is decoded and its bytes are removed from the front of
the buffer.  The thrown errors are modelled by `Except.error`. -/

/-- A decoded frame as produced by `parseFrames_`.  `command` is
`payload[0]`, which in JavaScript is `undefined` when the payload is empty,
hence `Option Nat`. -/
structure Frame where
  command : Option Nat
  parameters : List Nat
  checksum : Nat
  payloadLength : Nat
  payload : List Nat
deriving DecidableEq, Repr

/-- The two fatal decoder errors: magic-byte mismatch and checksum
mismatch (both surface as a thrown `EvalError` in the source). -/
inductive ParseError where
  | protocol
  | checksum
deriving DecidableEq, Repr

/-- One iteration of the `parseFrames_` loop: `some (frame, rest)` when a
complete frame sits at the front of the buffer, `none` when the buffer is
incomplete (the loop `break`s and keeps the bytes). -/
def parseStep (buf : List Nat) : Except ParseError (Option (Frame × List Nat)) :=
  if buf.length < 4 then .ok none
  else if buf.getD 0 0 ≠ 0xAA ∨ buf.getD 1 0 ≠ 0x55 then .error .protocol
  else if buf.length < 2 + 1 + buf.getD 2 0 + 1 then .ok none
  else if crc8 ((buf.drop 3).take (buf.getD 2 0)) ≠ buf.getD (2 + 1 + buf.getD 2 0) 0
    then .error .checksum
  else
    .ok (some (⟨((buf.drop 3).take (buf.getD 2 0)).head?,
                ((buf.drop 3).take (buf.getD 2 0)).drop 1,
                buf.getD (2 + 1 + buf.getD 2 0) 0,
                buf.getD 2 0,
                (buf.drop 3).take (buf.getD 2 0)⟩,
               buf.drop (2 + 1 + buf.getD 2 0 + 1)))

theorem parseStep_rest_length {buf : List Nat} {fr : Frame} {rest : List Nat}
    (h : parseStep buf = .ok (some (fr, rest))) : rest.length < buf.length := by
  unfold parseStep at h
  split at h
  · exact absurd h (by simp)
  · split at h
    · exact absurd h (by simp)
    · split at h
      · exact absurd h (by simp)
      · split at h
        · exact absurd h (by simp)
        · simp only [Except.ok.injEq, Option.some.injEq, Prod.mk.injEq] at h
          obtain ⟨-, hrest⟩ := h
          subst hrest
          simp only [List.length_drop]
          omega

/-- Embeds the `while` loop of `parseFrames_`: extracts as many complete
frames as possible, returning them with the leftover bytes.  (The source
returns `false` instead of an empty frame list; `onResponse_` treats both
identically, so the pair already carries all the information.) -/
def parseFramesAux (buf : List Nat) : Except ParseError (List Frame × List Nat) :=
  match h : parseStep buf with
  | .error e => .error e
  | .ok none => .ok ([], buf)
  | .ok (some (fr, rest)) =>
    match parseFramesAux rest with
    | .error e => .error e
    | .ok (frames, leftover) => .ok (fr :: frames, leftover)
termination_by buf.length
decreasing_by exact parseStep_rest_length h

/-- The frame `parseFrames_` decodes from a well-formed wire frame whose
payload is `command % 256 :: params`. -/
def decodeOf (command : Nat) (params : List Nat) : Frame where
  command := some (command % 256)
  parameters := params
  checksum := crc8 (command % 256 :: params)
  payloadLength := params.length + 1
  payload := command % 256 :: params

/-- A complete well-formed wire frame at the front of the buffer is decoded
in one `parseFrames_` iteration, leaving exactly the trailing bytes. -/
theorem parseStep_wire (n : Nat) (P rest : List Nat) (hn : P.length = n) :
    parseStep (0xAA :: 0x55 :: n :: (P ++ ([crc8 P] ++ rest))) =
      .ok (some (⟨P.head?, P.drop 1, crc8 P, n, P⟩, rest)) := by
  have h0 : (0xAA :: 0x55 :: n :: (P ++ ([crc8 P] ++ rest))).getD 0 0 = 0xAA := rfl
  have h1 : (0xAA :: 0x55 :: n :: (P ++ ([crc8 P] ++ rest))).getD 1 0 = 0x55 := rfl
  have h2 : (0xAA :: 0x55 :: n :: (P ++ ([crc8 P] ++ rest))).getD 2 0 = n := rfl
  have hlen : (0xAA :: 0x55 :: n :: (P ++ ([crc8 P] ++ rest))).length
      = n + 4 + rest.length := by
    simp [hn]
    omega
  have hdrop3 : (0xAA :: 0x55 :: n :: (P ++ ([crc8 P] ++ rest))).drop 3
      = P ++ ([crc8 P] ++ rest) := by simp
  have htake : (P ++ ([crc8 P] ++ rest)).take n = P := List.take_left' hn
  have hchk : (0xAA :: 0x55 :: n :: (P ++ ([crc8 P] ++ rest))).getD (2 + 1 + n) 0
      = crc8 P := by
    have hsplit : (0xAA :: 0x55 :: n :: (P ++ ([crc8 P] ++ rest)))
        = ([0xAA, 0x55, n] ++ P) ++ ([crc8 P] ++ rest) := by simp
    rw [hsplit, List.getD_append_right _ _ 0 _ (by simp [hn]; omega)]
    have hidx : 2 + 1 + n - ([(0xAA : Nat), 0x55, n] ++ P).length = 0 := by
      simp [hn]
      omega
    rw [hidx]
    rfl
  have hdropAll : (0xAA :: 0x55 :: n :: (P ++ ([crc8 P] ++ rest))).drop (2 + 1 + n + 1)
      = rest := by
    have hsplit : (0xAA :: 0x55 :: n :: (P ++ ([crc8 P] ++ rest)))
        = (([0xAA, 0x55, n] ++ P) ++ [crc8 P]) ++ rest := by simp
    rw [hsplit, List.drop_left' (by simp [hn]; omega)]
  unfold parseStep
  rw [h2, h0, h1, hlen, hdrop3, htake, hchk, hdropAll]
  rw [if_neg (by omega), if_neg (by simp), if_neg (by omega), if_neg (by simp)]

/-- `parseFrames_` decodes one frame built by `buildFrame` at the front of
the buffer back into its command and parameters. -/
theorem parseStep_buildFrame (cmd : Nat) (params rest : List Nat)
    (hle : params.length ≤ 254) :
    parseStep (buildFrame cmd params ++ rest) =
      .ok (some (decodeOf cmd params, rest)) := by
  have hshape : buildFrame cmd params ++ rest
      = 0xAA :: 0x55 :: (params.length + 1) ::
        ((cmd % 256 :: params) ++ ([crc8 (cmd % 256 :: params)] ++ rest)) := by
    simp [buildFrame, Nat.mod_eq_of_lt (show params.length + 1 < 256 by omega)]
  rw [hshape, parseStep_wire (params.length + 1) _ rest (by simp)]
  rfl

/-- Any strict front portion of a `buildFrame` output is incomplete: the
parser waits for more bytes instead of raising an error. -/
theorem parseStep_take_buildFrame (cmd : Nat) (params : List Nat) (m : Nat)
    (hle : params.length ≤ 254) (hm : m < (buildFrame cmd params).length) :
    parseStep ((buildFrame cmd params).take m) = .ok none := by
  have htot := buildFrame_length cmd params
  by_cases h4 : m < 4
  · unfold parseStep
    rw [if_pos]
    rw [List.length_take]
    omega
  · obtain ⟨k, rfl⟩ : ∃ k, m = k + 1 + 1 + 1 := ⟨m - 3, by omega⟩
    have hmod : (cmd % 256 :: params).length % 256 = params.length + 1 := by
      simp
      omega
    have hform : (buildFrame cmd params).take (k + 1 + 1 + 1)
        = 0xAA :: 0x55 :: (params.length + 1) ::
          (((cmd % 256 :: params) ++ [crc8 (cmd % 256 :: params)]).take k) := by
      simp only [buildFrame, List.take_succ_cons, hmod]
    have hlenT : (((cmd % 256 :: params) ++ [crc8 (cmd % 256 :: params)]).take k).length
        = k := by
      rw [List.length_take]
      simp
      omega
    rw [hform]
    unfold parseStep
    have h0 : (0xAA :: 0x55 :: (params.length + 1) ::
        (((cmd % 256 :: params) ++ [crc8 (cmd % 256 :: params)]).take k)).getD 0 0
        = 0xAA := rfl
    have h1 : (0xAA :: 0x55 :: (params.length + 1) ::
        (((cmd % 256 :: params) ++ [crc8 (cmd % 256 :: params)]).take k)).getD 1 0
        = 0x55 := rfl
    have h2 : (0xAA :: 0x55 :: (params.length + 1) ::
        (((cmd % 256 :: params) ++ [crc8 (cmd % 256 :: params)]).take k)).getD 2 0
        = params.length + 1 := rfl
    have hlenB : (0xAA :: 0x55 :: (params.length + 1) ::
        (((cmd % 256 :: params) ++ [crc8 (cmd % 256 :: params)]).take k)).length
        = k + 3 := by
      simp [hlenT]
      omega
    rw [h0, h1, h2, hlenB, if_neg (by omega), if_neg (by simp),
      if_pos (by omega)]

/-- Unfolding equation of `parseFramesAux` when the head frame is
incomplete. -/
theorem parseFramesAux_stuck {buf : List Nat} (h : parseStep buf = .ok none) :
    parseFramesAux buf = .ok ([], buf) := by
  rw [parseFramesAux.eq_def]
  split
  · simp_all
  · rfl
  · simp_all

/-- Unfolding equation of `parseFramesAux` on a decoder error. -/
theorem parseFramesAux_error {buf : List Nat} {e : ParseError}
    (h : parseStep buf = .error e) : parseFramesAux buf = .error e := by
  rw [parseFramesAux.eq_def]
  split
  · simp_all
  · simp_all
  · simp_all

/-- Unfolding equation of `parseFramesAux` when a complete frame is
extracted. -/
theorem parseFramesAux_cons {buf : List Nat} {fr : Frame} {rest : List Nat}
    (h : parseStep buf = .ok (some (fr, rest))) :
    parseFramesAux buf =
      match parseFramesAux rest with
      | .error e => .error e
      | .ok (frames, leftover) => .ok (fr :: frames, leftover) := by
  rw [parseFramesAux.eq_def]
  split
  · simp_all
  · simp_all
  · rename_i fr' rest' heq
    rw [h] at heq
    simp only [Except.ok.injEq, Option.some.injEq, Prod.mk.injEq] at heq
    obtain ⟨rfl, rfl⟩ := heq
    rfl

/-- A command/parameter pair that a single valid wire frame can carry: a
command byte and at most 254 parameter bytes (so the payload length fits
the 1-byte length field). -/
def ValidSpec (p : Nat × List Nat) : Prop :=
  p.1 < 256 ∧ p.2.length ≤ 254 ∧ ∀ b ∈ p.2, b < 256

instance : DecidablePred ValidSpec := fun p =>
  decidable_of_iff (p.1 < 256 ∧ p.2.length ≤ 254 ∧ ∀ b ∈ p.2, b < 256) Iff.rfl

/-- Concatenated wire encoding of a sequence of command/parameter pairs. -/
def encodeAll (fs : List (Nat × List Nat)) : List Nat :=
  (fs.map fun p => buildFrame p.1 p.2).flatten

theorem encodeAll_cons (p : Nat × List Nat) (fs : List (Nat × List Nat)) :
    encodeAll (p :: fs) = buildFrame p.1 p.2 ++ encodeAll fs := by
  simp [encodeAll]

theorem encodeAll_append (a b : List (Nat × List Nat)) :
    encodeAll (a ++ b) = encodeAll a ++ encodeAll b := by
  simp [encodeAll]

/-- `parseFrames_` on a buffer made of whole frames followed by an
incomplete tail decodes exactly those frames and keeps the tail. -/
theorem parseFramesAux_encodeAll (fs : List (Nat × List Nat))
    (hv : ∀ q ∈ fs, ValidSpec q) (p : List Nat) (hp : parseStep p = .ok none) :
    parseFramesAux (encodeAll fs ++ p) =
      .ok (fs.map fun c => decodeOf c.1 c.2, p) := by
  induction fs with
  | nil =>
    simpa [encodeAll] using parseFramesAux_stuck hp
  | cons f fs ih =>
    have hvf := hv f (List.mem_cons_self f fs)
    rw [encodeAll_cons, List.append_assoc,
      parseFramesAux_cons (parseStep_buildFrame f.1 f.2 _ hvf.2.1),
      ih fun q hq => hv q (List.mem_cons_of_mem f hq)]
    simp

/-- Any front portion of a stream of valid frames splits into whole frames
followed by an incomplete tail, and `parseFrames_` decodes exactly the
whole frames, keeping the tail buffered. -/
theorem parseFramesAux_split (fs : List (Nat × List Nat))
    (hv : ∀ q ∈ fs, ValidSpec q) :
    ∀ q r : List Nat, q ++ r = encodeAll fs →
    ∃ gs hs p, fs = gs ++ hs ∧ q = encodeAll gs ++ p ∧
      parseStep p = .ok none ∧
      parseFramesAux q = .ok (gs.map fun c => decodeOf c.1 c.2, p) := by
  induction fs with
  | nil =>
    intro q r hEq
    rw [show encodeAll [] = [] from rfl] at hEq
    obtain ⟨rfl, rfl⟩ := List.append_eq_nil.mp hEq
    exact ⟨[], [], [], rfl, rfl, rfl, parseFramesAux_stuck rfl⟩
  | cons f fs ih =>
    intro q r hEq
    have hvf := hv f (List.mem_cons_self f fs)
    rw [encodeAll_cons] at hEq
    rcases List.append_eq_append_iff.mp hEq with ⟨a, ha1, ha2⟩ | ⟨c, hc1, hc2⟩
    · by_cases haa : a = []
      · subst haa
        rw [List.append_nil] at ha1
        have hone : parseFramesAux (buildFrame f.1 f.2)
            = .ok ([decodeOf f.1 f.2], []) := by
          have h := parseFramesAux_cons (parseStep_buildFrame f.1 f.2 [] hvf.2.1)
          rw [List.append_nil] at h
          rw [h, @parseFramesAux_stuck [] rfl]
        refine ⟨[f], fs, [], rfl, ?_, rfl, ?_⟩
        · rw [← ha1]
          simp [encodeAll]
        · rw [← ha1, hone]
          simp
      · have hq_take : q = (buildFrame f.1 f.2).take q.length := by
          conv_lhs => rw [show q = (q ++ a).take q.length from (List.take_left q a).symm]
          rw [← ha1]
        have hlt : q.length < (buildFrame f.1 f.2).length := by
          rw [ha1, List.length_append]
          have := List.length_pos.mpr haa
          omega
        have hstuck : parseStep q = .ok none := by
          rw [hq_take]
          exact parseStep_take_buildFrame _ _ _ hvf.2.1 hlt
        exact ⟨[], f :: fs, q, rfl, by simp [encodeAll], hstuck,
          parseFramesAux_stuck hstuck⟩
    · subst hc1
      obtain ⟨gs, hs, p, h1, h2, h3, h4⟩ :=
        ih (fun q hq => hv q (List.mem_cons_of_mem f hq)) c r hc2.symm
      subst h2
      refine ⟨f :: gs, hs, p, by rw [List.cons_append, ← h1], ?_, h3, ?_⟩
      · rw [encodeAll_cons, List.append_assoc]
      · rw [parseFramesAux_cons (parseStep_buildFrame f.1 f.2 _ hvf.2.1), h4]
        simp

/-! ## Receive path

`L8.prototype.onResponse_(data)` (src/Library/MatrixBuilder.js, lines
600-622) appends the incoming chunk to the receive buffer and runs
`parseFrames_` on it, emitting every decoded frame in order; leftover bytes
stay buffered for the next call. -/

/-- The unbounded logical view of feeding a sequence of chunks through the
receive path (append to the buffered bytes, then extract frames),
starting from the buffered bytes `st`; collects all frames emitted across
the calls and the final buffered leftover.  This is a proof-side
abstraction: the faithful model of `onResponse_`'s fixed 4096-byte
`receiveBuffer_` is `onResponseFixed`/`feedAllFixed` below, related to
this view by `parseFramesFixed_sim`/`feedAllFixed_sim`. -/
def feedAll (st : List Nat) (chunks : List (List Nat)) :
    Except ParseError (List Frame × List Nat) :=
  match chunks with
  | [] => .ok ([], st)
  | c :: cs =>
    match parseFramesAux (st ++ c) with
    | .error e => .error e
    | .ok (frames, st') =>
      match feedAll st' cs with
      | .error e => .error e
      | .ok (frames', final) => .ok (frames ++ frames', final)

/-- Feeding chunks that together spell a stream of valid frames, starting
from an incomplete buffered tail `s`, emits exactly the decoded frames and
drains the buffer. -/
theorem feedAll_valid (chunks : List (List Nat)) :
    ∀ (fs : List (Nat × List Nat)) (s : List Nat),
      (∀ q ∈ fs, ValidSpec q) → parseStep s = .ok none →
      s ++ chunks.flatten = encodeAll fs →
      feedAll s chunks = .ok (fs.map fun c => decodeOf c.1 c.2, []) := by
  induction chunks with
  | nil =>
    intro fs s hv hs hEq
    rw [List.flatten_nil, List.append_nil] at hEq
    cases fs with
    | nil =>
      rw [show encodeAll [] = [] from rfl] at hEq
      subst hEq
      rfl
    | cons f fs =>
      exfalso
      have hvf := hv f (List.mem_cons_self f fs)
      rw [encodeAll_cons] at hEq
      have hsome := parseStep_buildFrame f.1 f.2 (encodeAll fs) hvf.2.1
      rw [← hEq, hs] at hsome
      simp at hsome
  | cons c cs ih =>
    intro fs s hv hs hEq
    have hEq' : (s ++ c) ++ cs.flatten = encodeAll fs := by
      rw [List.append_assoc]
      rw [List.flatten_cons] at hEq
      rw [← List.append_assoc] at hEq
      rw [List.append_assoc] at hEq
      exact hEq
    obtain ⟨gs, hs2, p, h1, h2, h3, h4⟩ :=
      parseFramesAux_split fs hv (s ++ c) cs.flatten hEq'
    have hcancel : p ++ cs.flatten = encodeAll hs2 := by
      have h5 : (encodeAll gs ++ p) ++ cs.flatten
          = encodeAll gs ++ encodeAll hs2 := by
        rw [← h2, hEq', h1, encodeAll_append]
      rw [List.append_assoc] at h5
      exact List.append_cancel_left h5
    have hv2 : ∀ q ∈ hs2, ValidSpec q := fun q hq =>
      hv q (by rw [h1]; exact List.mem_append_right gs hq)
    have hrec := ih hs2 p hv2 h3 hcancel
    rw [h2] at h4
    simp only [feedAll]
    rw [← h2] at h4
    rw [h4]
    simp only [hrec]
    rw [h1]
    simp

/-! ## Claim theorems: framing -/

/-- **C1** — Frame round-trip: for every command byte and every parameter
byte sequence of length 0..250, encoding with `buildFrame` and decoding
with the frame parser yields exactly the original command byte and the
original parameter bytes (one frame, nothing left over). -/
theorem claim_C1_roundtrip (cmd : Nat) (params : List Nat)
    (hcmd : cmd < 256) (hbytes : ∀ b ∈ params, b < 256)
    (hlen : params.length ≤ 250) :
    parseFramesAux (buildFrame cmd params) = .ok ([decodeOf cmd params], []) ∧
    (decodeOf cmd params).command = some cmd ∧
    (decodeOf cmd params).parameters = params := by
  refine ⟨?_, ?_, rfl⟩
  · have h := parseFramesAux_cons (parseStep_buildFrame cmd params [] (by omega))
    rw [List.append_nil] at h
    rw [h, @parseFramesAux_stuck [] rfl]
  · simp [decodeOf, Nat.mod_eq_of_lt hcmd]

theorem claim_C1_roundtrip_witness :
    (3 : Nat) < 256 ∧ (∀ b ∈ [(1 : Nat), 2, 3], b < 256) ∧
    [(1 : Nat), 2, 3].length ≤ 250 ∧
    parseFramesAux (buildFrame 3 [1, 2, 3]) = .ok ([decodeOf 3 [1, 2, 3]], []) ∧
    (decodeOf 3 [1, 2, 3]).command = some 3 ∧
    (decodeOf 3 [1, 2, 3]).parameters = [1, 2, 3] :=
  ⟨by decide, by decide, by decide,
    claim_C1_roundtrip 3 [1, 2, 3] (by decide) (by decide) (by decide)⟩

/-- Feeding chunks that spell a front portion of a stream of valid frames
decodes the whole frames received so far and keeps the bytes of the
incomplete trailing frame buffered. -/
theorem feedAll_front (chunks : List (List Nat)) :
    ∀ (fs : List (Nat × List Nat)) (s r : List Nat),
      (∀ q ∈ fs, ValidSpec q) → parseStep s = .ok none →
      (s ++ chunks.flatten) ++ r = encodeAll fs →
      ∃ gs hs p, fs = gs ++ hs ∧
        s ++ chunks.flatten = encodeAll gs ++ p ∧
        parseStep p = .ok none ∧
        feedAll s chunks = .ok (gs.map fun c => decodeOf c.1 c.2, p) := by
  induction chunks with
  | nil =>
    intro fs s r hv hs hEq
    exact ⟨[], fs, s, rfl, by simp [encodeAll], hs, by simp [feedAll]⟩
  | cons c cs ih =>
    intro fs s r hv hs hEq
    have hEq' : (s ++ c) ++ (cs.flatten ++ r) = encodeAll fs := by
      rw [List.flatten_cons] at hEq
      simp only [List.append_assoc] at hEq ⊢
      exact hEq
    obtain ⟨gs1, hs1, p1, h1, h2, h3, h4⟩ :=
      parseFramesAux_split fs hv (s ++ c) _ hEq'
    have hcancel : p1 ++ (cs.flatten ++ r) = encodeAll hs1 := by
      have h5 : (encodeAll gs1 ++ p1) ++ (cs.flatten ++ r)
          = encodeAll gs1 ++ encodeAll hs1 := by
        rw [← h2, hEq', h1, encodeAll_append]
      rw [List.append_assoc] at h5
      exact List.append_cancel_left h5
    have hv1 : ∀ q ∈ hs1, ValidSpec q := fun q hq =>
      hv q (by rw [h1]; exact List.mem_append_right gs1 hq)
    obtain ⟨gs2, hs2, p2, g1, g2, g3, g4⟩ :=
      ih hs1 p1 r hv1 h3 (by rw [List.append_assoc]; exact hcancel)
    refine ⟨gs1 ++ gs2, hs2, p2, ?_, ?_, g3, ?_⟩
    · rw [h1, g1, List.append_assoc]
    · rw [List.flatten_cons, ← List.append_assoc, h2, List.append_assoc, g2,
        encodeAll_append, List.append_assoc]
    · simp only [feedAll]
      rw [h4]
      simp only [g4]
      simp

/-! ## Fixed-capacity receive path

The faithful model of the receive state: `receiveBuffer_` is allocated
once as `new Buffer(4096)` (src/Library/MatrixBuilder.js, lines 456-459)
next to a logical length cursor.  `onResponse_` appends each chunk with
`data.copy(this.receiveBuffer_.buffer, this.receiveBuffer_.length)` —
node's `Buffer.copy` silently truncates at the target's end — and then
advances the cursor by the full chunk length, so on overflow the cursor
counts bytes that were never stored.  `parseFrames_` reads the fixed
buffer under that cursor and compacts consumed bytes to the front with the
in-place `data.copy(data, 0, consumed)`, which leaves the final `consumed`
cells holding their previous, now stale, contents.  All reachable reads
sit at offsets at most 258 (a payload is at most 255 bytes), so reads
never leave the 4096-cell allocation; the cells hold byte values in every
reachable state. -/

/-- Models `data.copy(target, targetStart)`: overwrite `cells` from offset
`off` with `data`, silently dropping whatever does not fit; the
allocation's length never changes. -/
def writeBytes (cells : List Nat) (off : Nat) (data : List Nat) : List Nat :=
  cells.take off ++ data.take (cells.length - off) ++ cells.drop (off + data.length)

/-- Models the in-place compaction `data.copy(data, 0, consumed)`
(memmove semantics): bytes from offset `consumed` on move to the front,
and the final `consumed` cells keep their previous, now stale, contents. -/
def compact (cells : List Nat) (consumed : Nat) : List Nat :=
  cells.drop consumed ++ cells.drop (cells.length - consumed)

/-- One iteration of the `parseFrames_` loop on the fixed-size buffer:
exactly `parseStep`, except that availability is judged by the logical
length cursor `len` while bytes are read from the 4096-cell buffer, and
consumed bytes are compacted to the front. -/
def parseStepFixed (cells : List Nat) (len : Nat) :
    Except ParseError (Option (Frame × (List Nat × Nat))) :=
  if len < 4 then .ok none
  else if cells.getD 0 0 ≠ 0xAA ∨ cells.getD 1 0 ≠ 0x55 then .error .protocol
  else if len < 2 + 1 + cells.getD 2 0 + 1 then .ok none
  else if crc8 ((cells.drop 3).take (cells.getD 2 0))
      ≠ cells.getD (2 + 1 + cells.getD 2 0) 0 then .error .checksum
  else
    .ok (some (⟨((cells.drop 3).take (cells.getD 2 0)).head?,
                ((cells.drop 3).take (cells.getD 2 0)).drop 1,
                cells.getD (2 + 1 + cells.getD 2 0) 0,
                cells.getD 2 0,
                (cells.drop 3).take (cells.getD 2 0)⟩,
               (compact cells (2 + 1 + cells.getD 2 0 + 1),
                len - (2 + 1 + cells.getD 2 0 + 1))))

/-- The `parseFrames_` loop on the fixed-size buffer.  The loop consumes
at least 4 from the length cursor per iteration, so running it with the
cursor itself as fuel never exhausts the fuel;
`parseFramesFixed_fuel_irrelevant` below makes the fuel an artifact. -/
def parseFramesFixed :
    Nat → List Nat → Nat → Except ParseError (List Frame × (List Nat × Nat))
  | 0, cells, len => .ok ([], (cells, len))
  | fuel + 1, cells, len =>
    match parseStepFixed cells len with
    | .error e => .error e
    | .ok none => .ok ([], (cells, len))
    | .ok (some (fr, (cells2, len2))) =>
      match parseFramesFixed fuel cells2 len2 with
      | .error e => .error e
      | .ok (frames, st) => .ok (fr :: frames, st)

/-- The receive state owned by one `L8` connection: the fixed 4096-byte
allocation and the logical length cursor (`this.receiveBuffer_`). -/
structure RecvBuffer where
  buffer : List Nat
  length : Nat
deriving DecidableEq, Repr

/-- Embeds `L8.prototype.onResponse_` faithfully: truncating append,
cursor advance by the full chunk length, then the parse loop. -/
def onResponseFixed (st : RecvBuffer) (data : List Nat) :
    Except ParseError (List Frame × RecvBuffer) :=
  match parseFramesFixed (st.length + data.length)
      (writeBytes st.buffer st.length data) (st.length + data.length) with
  | .error e => .error e
  | .ok (frames, (cells, len)) => .ok (frames, ⟨cells, len⟩)

/-- Feed a sequence of chunks through the faithful receive path, starting
from the state `st`; collects all frames emitted across the calls and the
final receive state. -/
def feedAllFixed (st : RecvBuffer) (chunks : List (List Nat)) :
    Except ParseError (List Frame × RecvBuffer) :=
  match chunks with
  | [] => .ok ([], st)
  | c :: cs =>
    match onResponseFixed st c with
    | .error e => .error e
    | .ok (frames, st2) =>
      match feedAllFixed st2 cs with
      | .error e => .error e
      | .ok (frames2, final) => .ok (frames ++ frames2, final)

theorem writeBytes_length (cells : List Nat) (off : Nat) (data : List Nat) :
    (writeBytes cells off data).length = cells.length := by
  simp [writeBytes]
  omega

theorem writeBytes_take (cells : List Nat) (off : Nat) (data : List Nat)
    (hoff : off ≤ cells.length) (hfit : off + data.length ≤ cells.length) :
    (writeBytes cells off data).take (off + data.length)
      = cells.take off ++ data := by
  unfold writeBytes
  rw [List.take_of_length_le (show data.length ≤ cells.length - off by omega),
    List.append_assoc]
  have hlen : (cells.take off).length = off := by
    rw [List.length_take]
    omega
  rw [show off + data.length = (cells.take off).length + data.length from by
    rw [hlen]]
  rw [List.take_append, List.take_append_of_le_length (le_refl data.length),
    List.take_length]

theorem compact_length (cells : List Nat) (consumed : Nat) :
    (compact cells consumed).length = cells.length := by
  simp [compact]

theorem compact_take (cells : List Nat) (consumed m : Nat)
    (hm : m ≤ cells.length - consumed) :
    (compact cells consumed).take m = (cells.drop consumed).take m := by
  unfold compact
  rw [List.take_append_of_le_length (by simp [List.length_drop]; omega)]

theorem getD_take_eq (l : List Nat) (m i d : Nat) (h : i < m) :
    (l.take m).getD i d = l.getD i d := by
  simp [List.getD, List.getElem?_take, h]

/-- The guard facts behind an incomplete `parseStep` result. -/
theorem parseStep_none_facts {buf : List Nat} (h : parseStep buf = .ok none) :
    buf.length < 4 ∨
    (4 ≤ buf.length ∧ buf.getD 0 0 = 0xAA ∧ buf.getD 1 0 = 0x55 ∧
      buf.length < 2 + 1 + buf.getD 2 0 + 1) := by
  unfold parseStep at h
  split at h
  · exact Or.inl (by assumption)
  · split at h
    · exact absurd h (by simp)
    · split at h
      · rename_i h1 h2 h3
        push_neg at h1 h2
        exact Or.inr ⟨by omega, h2.1, h2.2, h3⟩
      · split at h
        · exact absurd h (by simp)
        · exact absurd h (by simp)

/-- The guard facts and components behind a successful `parseStep`. -/
theorem parseStep_some_facts {buf : List Nat} {fr : Frame} {rest : List Nat}
    (h : parseStep buf = .ok (some (fr, rest))) :
    4 ≤ buf.length ∧ buf.getD 0 0 = 0xAA ∧ buf.getD 1 0 = 0x55 ∧
    2 + 1 + buf.getD 2 0 + 1 ≤ buf.length ∧
    crc8 ((buf.drop 3).take (buf.getD 2 0)) = buf.getD (2 + 1 + buf.getD 2 0) 0 ∧
    fr = ⟨((buf.drop 3).take (buf.getD 2 0)).head?,
          ((buf.drop 3).take (buf.getD 2 0)).drop 1,
          buf.getD (2 + 1 + buf.getD 2 0) 0, buf.getD 2 0,
          (buf.drop 3).take (buf.getD 2 0)⟩ ∧
    rest = buf.drop (2 + 1 + buf.getD 2 0 + 1) := by
  unfold parseStep at h
  split at h
  · exact absurd h (by simp)
  · split at h
    · exact absurd h (by simp)
    · split at h
      · exact absurd h (by simp)
      · split at h
        · exact absurd h (by simp)
        · rename_i h1 h2 h3 h4
          push_neg at h1 h2 h3 h4
          simp only [Except.ok.injEq, Option.some.injEq, Prod.mk.injEq] at h
          exact ⟨h1, h2.1, h2.2, h3, h4, h.1.symm, h.2.symm⟩

/-- While the logical window is backed by stored bytes, an incomplete
`parseStep` verdict on the window transfers to the fixed buffer. -/
theorem parseStepFixed_none {cells buf : List Nat} {len : Nat}
    (hl : len = buf.length) (ht : cells.take len = buf)
    (h : parseStep buf = .ok none) : parseStepFixed cells len = .ok none := by
  rcases parseStep_none_facts h with h4 | ⟨h4, hm0, hm1, hinc⟩
  · unfold parseStepFixed
    rw [if_pos (by omega)]
  · have g0 : cells.getD 0 0 = buf.getD 0 0 := by
      rw [← ht, getD_take_eq _ _ _ _ (by omega)]
    have g1 : cells.getD 1 0 = buf.getD 1 0 := by
      rw [← ht, getD_take_eq _ _ _ _ (by omega)]
    have g2 : cells.getD 2 0 = buf.getD 2 0 := by
      rw [← ht, getD_take_eq _ _ _ _ (by omega)]
    unfold parseStepFixed
    rw [if_neg (by omega), if_neg (by rw [g0, g1, hm0, hm1]; simp),
      if_pos (by rw [g2]; omega)]

/-- While the logical window is backed by stored bytes, a successful
`parseStep` on the window transfers to the fixed buffer, and the compacted
buffer still backs the leftover window. -/
theorem parseStepFixed_some {cells buf : List Nat} {len : Nat} {fr : Frame}
    {rest : List Nat}
    (hc : cells.length = 4096) (hl : len = buf.length) (hle : len ≤ 4096)
    (ht : cells.take len = buf)
    (h : parseStep buf = .ok (some (fr, rest))) :
    parseStepFixed cells len
      = .ok (some (fr, (compact cells (2 + 1 + buf.getD 2 0 + 1),
          rest.length))) ∧
    (compact cells (2 + 1 + buf.getD 2 0 + 1)).length = 4096 ∧
    rest.length ≤ 4096 ∧
    (compact cells (2 + 1 + buf.getD 2 0 + 1)).take rest.length = rest := by
  obtain ⟨h4, hm0, hm1, hcomp, hchk, hfr, hrest⟩ := parseStep_some_facts h
  obtain ⟨n, hn⟩ : ∃ n, buf.getD 2 0 = n := ⟨buf.getD 2 0, rfl⟩
  rw [hn] at hcomp hchk hfr hrest ⊢
  have g0 : cells.getD 0 0 = 0xAA := by
    have hx : (cells.take len).getD 0 0 = cells.getD 0 0 :=
      getD_take_eq _ _ _ _ (by omega)
    rw [ht] at hx
    rw [← hx]
    exact hm0
  have g1 : cells.getD 1 0 = 0x55 := by
    have hx : (cells.take len).getD 1 0 = cells.getD 1 0 :=
      getD_take_eq _ _ _ _ (by omega)
    rw [ht] at hx
    rw [← hx]
    exact hm1
  have g2 : cells.getD 2 0 = n := by
    have hx : (cells.take len).getD 2 0 = cells.getD 2 0 :=
      getD_take_eq _ _ _ _ (by omega)
    rw [ht] at hx
    rw [← hx]
    exact hn
  have gchk : cells.getD (2 + 1 + n) 0 = buf.getD (2 + 1 + n) 0 := by
    rw [← ht, getD_take_eq _ _ _ _ (by omega)]
  have gpay : (cells.drop 3).take n = (buf.drop 3).take n := by
    conv_rhs => rw [← ht]
    rw [List.drop_take, List.take_take]
    congr 1
    omega
  have hrl : rest.length = len - (2 + 1 + n + 1) := by
    rw [hrest, List.length_drop]
    omega
  have grest : (compact cells (2 + 1 + n + 1)).take rest.length = rest := by
    rw [compact_take _ _ _ (by rw [hc]; omega), hrl, hrest]
    conv_rhs => rw [← ht]
    rw [List.drop_take]
  refine ⟨?_, by rw [compact_length, hc], by omega, grest⟩
  unfold parseStepFixed
  rw [g0, g1, g2, gchk, gpay, hrl,
    if_neg (by omega), if_neg (by simp), if_neg (by omega),
    if_neg (by rw [hchk]; simp), hfr]

/-- Each successful fixed-buffer iteration strictly decreases the length
cursor. -/
theorem parseStepFixed_consume {cells : List Nat} {len : Nat} {fr : Frame}
    {st : List Nat × Nat}
    (h : parseStepFixed cells len = .ok (some (fr, st))) : st.2 < len := by
  unfold parseStepFixed at h
  split at h
  · exact absurd h (by simp)
  · split at h
    · exact absurd h (by simp)
    · split at h
      · exact absurd h (by simp)
      · split at h
        · exact absurd h (by simp)
        · simp only [Except.ok.injEq, Option.some.injEq, Prod.mk.injEq] at h
          obtain ⟨-, hst⟩ := h
          rw [← hst]
          simp only
          omega

/-- Unfolding equation of the fixed parse loop on an incomplete buffer
(in particular a zero-fuel call only ever arises at cursor 0, where the
loop would stop anyway). -/
theorem parseFramesFixed_stuck (fuel : Nat) {cells : List Nat} {len : Nat}
    (h : parseStepFixed cells len = .ok none) :
    parseFramesFixed fuel cells len = .ok ([], (cells, len)) := by
  cases fuel with
  | zero => rfl
  | succ f => simp only [parseFramesFixed, h]

/-- Unfolding equation of the fixed parse loop on a decoder error. -/
theorem parseFramesFixed_err (fuel : Nat) {cells : List Nat} {len : Nat}
    {e : ParseError} (h : parseStepFixed cells len = .error e)
    (hf : 1 ≤ fuel) : parseFramesFixed fuel cells len = .error e := by
  cases fuel with
  | zero => omega
  | succ f => simp only [parseFramesFixed, h]

/-- Unfolding equation of the fixed parse loop when a frame is
extracted. -/
theorem parseFramesFixed_cons (fuel : Nat) {cells : List Nat} {len : Nat}
    {fr : Frame} {cells2 : List Nat} {len2 : Nat}
    (h : parseStepFixed cells len = .ok (some (fr, (cells2, len2)))) :
    parseFramesFixed (fuel + 1) cells len =
      match parseFramesFixed fuel cells2 len2 with
      | .error e => .error e
      | .ok (frames, st) => .ok (fr :: frames, st) := by
  simp only [parseFramesFixed, h]

/-- The fuel of `parseFramesFixed` is an artifact: any fuel of at least
the length cursor gives the same run (the loop consumes at least 4 per
iteration). -/
theorem parseFramesFixed_fuel_irrelevant (fuel1 : Nat) :
    ∀ (fuel2 : Nat) (cells : List Nat) (len : Nat), len ≤ fuel1 → len ≤ fuel2 →
    parseFramesFixed fuel1 cells len = parseFramesFixed fuel2 cells len := by
  induction fuel1 with
  | zero =>
    intro fuel2 cells len h1 h2
    obtain rfl : len = 0 := by omega
    have hstep : parseStepFixed cells 0 = .ok none := by
      unfold parseStepFixed
      rw [if_pos (by omega)]
    rw [parseFramesFixed_stuck 0 hstep, parseFramesFixed_stuck fuel2 hstep]
  | succ f1 ih =>
    intro fuel2 cells len h1 h2
    cases fuel2 with
    | zero =>
      obtain rfl : len = 0 := by omega
      have hstep : parseStepFixed cells 0 = .ok none := by
        unfold parseStepFixed
        rw [if_pos (by omega)]
      rw [parseFramesFixed_stuck (f1 + 1) hstep, parseFramesFixed_stuck 0 hstep]
    | succ f2 =>
      cases hstep : parseStepFixed cells len with
      | error e =>
        rw [parseFramesFixed_err (f1 + 1) hstep (by omega),
          parseFramesFixed_err (f2 + 1) hstep (by omega)]
      | ok o =>
        cases o with
        | none =>
          rw [parseFramesFixed_stuck (f1 + 1) hstep,
            parseFramesFixed_stuck (f2 + 1) hstep]
        | some p =>
          obtain ⟨fr, cells2, len2⟩ := p
          have hlt : len2 < len := parseStepFixed_consume hstep
          rw [parseFramesFixed_cons f1 hstep, parseFramesFixed_cons f2 hstep,
            ih f2 cells2 len2 (by omega) (by omega)]

/-- Simulation of one `parseFrames_` run: while the logical window is
backed by stored bytes, the fixed-buffer loop emits exactly the frames of
the unbounded view, and the resulting buffer backs the leftover window. -/
theorem parseFramesFixed_sim (fuel : Nat) :
    ∀ (cells buf : List Nat) (len : Nat),
    cells.length = 4096 → len = buf.length → len ≤ 4096 →
    cells.take len = buf → len ≤ fuel →
    ∀ frames leftover, parseFramesAux buf = .ok (frames, leftover) →
    ∃ cells2, parseFramesFixed fuel cells len = .ok (frames, (cells2, leftover.length)) ∧
      cells2.length = 4096 ∧ leftover.length ≤ 4096 ∧
      cells2.take leftover.length = leftover := by
  induction fuel with
  | zero =>
    intro cells buf len hc hl hle ht hf frames leftover hparse
    obtain rfl : len = 0 := by omega
    obtain rfl : buf = [] := List.length_eq_zero.mp (by omega)
    rw [@parseFramesAux_stuck [] rfl] at hparse
    simp only [Except.ok.injEq, Prod.mk.injEq] at hparse
    obtain ⟨rfl, rfl⟩ := hparse
    exact ⟨cells, rfl, hc, by omega, by simp⟩
  | succ f ih =>
    intro cells buf len hc hl hle ht hf frames leftover hparse
    cases hstep : parseStep buf with
    | error e =>
      rw [parseFramesAux_error hstep] at hparse
      exact absurd hparse (by simp)
    | ok o =>
      cases o with
      | none =>
        rw [parseFramesAux_stuck hstep] at hparse
        simp only [Except.ok.injEq, Prod.mk.injEq] at hparse
        obtain ⟨rfl, rfl⟩ := hparse
        refine ⟨cells, ?_, hc, by omega, by rw [← hl]; exact ht⟩
        rw [parseFramesFixed_stuck (f + 1) (parseStepFixed_none hl ht hstep), hl]
      | some p =>
        obtain ⟨fr, mid⟩ := p
        obtain ⟨hstepF, hc2, hmle, ht2⟩ := parseStepFixed_some hc hl hle ht hstep
        rw [parseFramesAux_cons hstep] at hparse
        cases hrec : parseFramesAux mid with
        | error e =>
          rw [hrec] at hparse
          exact absurd hparse (by simp)
        | ok q =>
          obtain ⟨frames2, leftover2⟩ := q
          rw [hrec] at hparse
          simp only [Except.ok.injEq, Prod.mk.injEq] at hparse
          obtain ⟨rfl, rfl⟩ := hparse
          have hmlen := parseStep_rest_length hstep
          obtain ⟨cells3, hfix, hc3, hlen3, ht3⟩ :=
            ih (compact cells (2 + 1 + buf.getD 2 0 + 1)) mid mid.length hc2
              rfl (by omega) ht2 (by omega) frames2 leftover2 hrec
          refine ⟨cells3, ?_, hc3, hlen3, ht3⟩
          rw [parseFramesFixed_cons f hstepF, hfix]

/-- An incomplete front portion of a stream of valid frames holds at most
258 bytes (a strict front of one frame, whose total size is at most
259 bytes). -/
theorem stuck_front_length (fs : List (Nat × List Nat)) (p r : List Nat)
    (hv : ∀ q ∈ fs, ValidSpec q) (hEq : p ++ r = encodeAll fs)
    (hstuck : parseStep p = .ok none) : p.length ≤ 258 := by
  cases fs with
  | nil =>
    rw [show encodeAll [] = [] from rfl] at hEq
    obtain ⟨rfl, -⟩ := List.append_eq_nil.mp hEq
    simp
  | cons f fs =>
    have hvf := hv f (List.mem_cons_self f fs)
    rw [encodeAll_cons] at hEq
    have hflen : (buildFrame f.1 f.2).length = f.2.length + 5 :=
      buildFrame_length f.1 f.2
    rcases List.append_eq_append_iff.mp hEq with ⟨a, ha1, ha2⟩ | ⟨c, hc1, hc2⟩
    · by_cases haa : a = []
      · subst haa
        rw [List.append_nil] at ha1
        exfalso
        have hsome := parseStep_buildFrame f.1 f.2 [] hvf.2.1
        rw [List.append_nil, ha1, hstuck] at hsome
        exact absurd hsome (by simp)
      · have : p.length + a.length = f.2.length + 5 := by
          rw [← hflen, ha1, List.length_append]
        have := List.length_pos.mpr haa
        have := hvf.2.1
        omega
    · exfalso
      subst hc1
      have hsome := parseStep_buildFrame f.1 f.2 c hvf.2.1
      rw [hstuck] at hsome
      exact absurd hsome (by simp)

/-- The per-call capacity discipline of a chunk sequence: each call's
buffered bytes plus incoming chunk fit the 4096-byte allocation, judged
along the unbounded logical view. -/
def Fits : List Nat → List (List Nat) → Prop
  | _, [] => True
  | buf, c :: cs =>
    buf.length + c.length ≤ 4096 ∧
    ∀ frames leftover, parseFramesAux (buf ++ c) = .ok (frames, leftover) →
      Fits leftover cs

/-- Feeding a stream of valid frames in chunks of at most 3838 bytes never
overflows the receive buffer: the buffered leftover is always at most 258
bytes, so every append fits. -/
theorem fits_of_valid (chunks : List (List Nat)) :
    ∀ (fs : List (Nat × List Nat)) (s r : List Nat),
    (∀ q ∈ fs, ValidSpec q) → parseStep s = .ok none →
    (s ++ chunks.flatten) ++ r = encodeAll fs →
    (∀ c ∈ chunks, c.length ≤ 3838) →
    Fits s chunks := by
  induction chunks with
  | nil =>
    intro fs s r hv hs hEq hsize
    trivial
  | cons c cs ih =>
    intro fs s r hv hs hEq hsize
    have hEq' : (s ++ c) ++ (cs.flatten ++ r) = encodeAll fs := by
      rw [List.flatten_cons] at hEq
      simp only [List.append_assoc] at hEq ⊢
      exact hEq
    have hs258 : s.length ≤ 258 := by
      refine stuck_front_length fs s (c ++ (cs.flatten ++ r)) hv ?_ hs
      simp only [List.append_assoc] at hEq' ⊢
      exact hEq'
    refine ⟨by have := hsize c (List.mem_cons_self c cs); omega, ?_⟩
    intro frames leftover hparse
    obtain ⟨gs, hs2, p, h1, h2, h3, h4⟩ :=
      parseFramesAux_split fs hv (s ++ c) _ hEq'
    rw [hparse] at h4
    simp only [Except.ok.injEq, Prod.mk.injEq] at h4
    obtain ⟨-, hpl⟩ := h4
    rw [hpl]
    have hcancel : p ++ (cs.flatten ++ r) = encodeAll hs2 := by
      have h5 : (encodeAll gs ++ p) ++ (cs.flatten ++ r)
          = encodeAll gs ++ encodeAll hs2 := by
        rw [← h2, hEq', h1, encodeAll_append]
      rw [List.append_assoc] at h5
      exact List.append_cancel_left h5
    exact ih hs2 p r
      (fun q hq => hv q (by rw [h1]; exact List.mem_append_right gs hq)) h3
      (by rw [List.append_assoc]; exact hcancel)
      (fun d hd => hsize d (List.mem_cons_of_mem c hd))

/-- Simulation of the whole receive path: while every append fits the
4096-byte allocation, the faithful fixed-buffer path emits exactly the
frames of the unbounded logical view and its final state backs the
logical leftover. -/
theorem feedAllFixed_sim (chunks : List (List Nat)) :
    ∀ (cells buf : List Nat) (len : Nat),
    cells.length = 4096 → len = buf.length → len ≤ 4096 →
    cells.take len = buf → Fits buf chunks →
    ∀ frames leftover, feedAll buf chunks = .ok (frames, leftover) →
    ∃ st : RecvBuffer, feedAllFixed ⟨cells, len⟩ chunks = .ok (frames, st) ∧
      st.buffer.length = 4096 ∧ st.length = leftover.length ∧
      leftover.length ≤ 4096 ∧ st.buffer.take st.length = leftover := by
  induction chunks with
  | nil =>
    intro cells buf len hc hl hle ht hfits frames leftover hfeed
    simp only [feedAll, Except.ok.injEq, Prod.mk.injEq] at hfeed
    obtain ⟨rfl, rfl⟩ := hfeed
    exact ⟨⟨cells, len⟩, rfl, hc, hl, by omega, ht⟩
  | cons c cs ih =>
    intro cells buf len hc hl hle ht hfits frames leftover hfeed
    obtain ⟨hfit, hnext⟩ := hfits
    cases hparse : parseFramesAux (buf ++ c) with
    | error e =>
      simp [feedAll, hparse] at hfeed
    | ok q =>
      obtain ⟨frames1, mid⟩ := q
      simp only [feedAll, hparse] at hfeed
      cases hrest : feedAll mid cs with
      | error e =>
        simp [hrest] at hfeed
      | ok q2 =>
        obtain ⟨frames2, final⟩ := q2
        rw [hrest] at hfeed
        simp only [Except.ok.injEq, Prod.mk.injEq] at hfeed
        obtain ⟨rfl, rfl⟩ := hfeed
        -- the append: the new window `buf ++ c` is backed by the stored bytes
        have hwlen : (writeBytes cells len c).length = 4096 := by
          rw [writeBytes_length, hc]
        have hwtake : (writeBytes cells len c).take (len + c.length)
            = buf ++ c := by
          rw [writeBytes_take cells len c (by omega) (by omega), ht]
        have hlen2 : len + c.length = (buf ++ c).length := by
          rw [List.length_append]
          omega
        obtain ⟨cells2, hrun, hc2, hmle, ht2⟩ :=
          parseFramesFixed_sim (len + c.length) (writeBytes cells len c)
            (buf ++ c) (len + c.length) hwlen hlen2 (by omega) hwtake
            (le_refl _) frames1 mid hparse
        obtain ⟨st, hfixrest, hst1, hst2, hst3, hst4⟩ :=
          ih cells2 mid mid.length hc2 rfl (by omega) ht2
            (hnext frames1 mid hparse) frames2 final hrest
        refine ⟨st, ?_, hst1, hst2, hst3, hst4⟩
        simp only [feedAllFixed, onResponseFixed, hrun, hfixrest]

/-! ## C2: the overflow counterexample and the bounded chunk invariance

Seventeen 256-byte wire frames total 4352 bytes.  A single `onResponse_`
call carrying them copies only the first 4096 bytes into the allocation
(`Buffer.copy` truncates) while the cursor advances by the full 4352, so
the parser reads the final 256 logical bytes from cells still holding the
sixteenth frame: it replays that frame instead of decoding the
seventeenth.  Under the capacity (every call at most 3838 bytes, the
allocation minus the at most 258 buffered bytes of an incomplete trailing
frame) the faithful path agrees with the unbounded view. -/

theorem flatten_replicate_length (n : Nat) (l : List Nat) :
    ((List.replicate n l).flatten).length = n * l.length := by
  induction n with
  | zero => simp
  | succ m ih =>
    rw [List.replicate_succ, List.flatten_cons, List.length_append, ih]
    ring

theorem flatten_replicate_succ (n : Nat) (l : List Nat) :
    (List.replicate (n + 1) l).flatten = l ++ (List.replicate n l).flatten := by
  rw [List.replicate_succ, List.flatten_cons]

theorem flatten_replicate_succ_back (n : Nat) (l : List Nat) :
    (List.replicate (n + 1) l).flatten = (List.replicate n l).flatten ++ l := by
  rw [List.replicate_succ', List.flatten_append]
  simp

/-- The overflow stream: sixteen frames carrying 251 parameter bytes of
value 1 followed by one frame carrying 251 parameter bytes of value 2.
Each wire frame is 256 bytes, so the first sixteen fill the 4096-byte
allocation exactly and the seventeenth overflows it. -/
def cexFs : List (Nat × List Nat) :=
  List.replicate 16 (0, List.replicate 251 1) ++ [(0, List.replicate 251 2)]

/-- The repeated 256-byte wire frame of the overflow stream. -/
def cexF1 : List Nat := buildFrame 0 (List.replicate 251 1)

/-- The final, truncated-away wire frame of the overflow stream. -/
def cexF2 : List Nat := buildFrame 0 (List.replicate 251 2)

/-- The allocation contents after the overflowing append: sixteen copies
of the repeated frame, filling all 4096 cells. -/
def cexC : List Nat := (List.replicate 16 cexF1).flatten

/-- The frame decoded from the repeated wire frame. -/
def cexD1 : Frame := decodeOf 0 (List.replicate 251 1)

theorem cexF1_length : cexF1.length = 256 := by
  rw [cexF1, buildFrame_length, List.length_replicate]

theorem cexC_length : cexC.length = 4096 := by
  rw [cexC, flatten_replicate_length, cexF1_length]

theorem cexS_eq : encodeAll cexFs = cexC ++ cexF2 := by
  have ha : encodeAll (List.replicate 16 ((0 : Nat), List.replicate 251 1)) = cexC := by
    rw [encodeAll, List.map_replicate]
    show (List.replicate 16 (buildFrame 0 (List.replicate 251 1))).flatten = cexC
    rw [cexC, cexF1]
  have hb : encodeAll [((0 : Nat), List.replicate 251 2)] = cexF2 := by
    rw [encodeAll, List.map_cons, List.map_nil, List.flatten_cons,
      List.flatten_nil, List.append_nil, cexF2]
  rw [cexFs, encodeAll_append, ha, hb]

theorem cexS_length : (encodeAll cexFs).length = 4352 := by
  rw [cexS_eq, List.length_append, cexC_length, cexF2, buildFrame_length,
    List.length_replicate]

theorem cexS_take : (encodeAll cexFs).take 4096 = cexC := by
  rw [cexS_eq]
  exact List.take_left' cexC_length

theorem cexF1_shape : cexF1 = 0xAA :: 0x55 :: 252 ::
    ((0 :: List.replicate 251 1) ++ [crc8 (0 :: List.replicate 251 1)]) := by
  rw [cexF1, buildFrame]
  norm_num [-List.reduceReplicate]

theorem cexC_front : cexC = cexF1 ++ (List.replicate 15 cexF1).flatten := by
  rw [cexC, show (16 : Nat) = 15 + 1 from rfl, flatten_replicate_succ]

theorem cexC_back : cexC = (List.replicate 15 cexF1).flatten ++ cexF1 := by
  rw [cexC, show (16 : Nat) = 15 + 1 from rfl, flatten_replicate_succ_back]

theorem cexC_shape : cexC = 0xAA :: 0x55 :: 252 ::
    ((0 :: List.replicate 251 1) ++
      ([crc8 (0 :: List.replicate 251 1)] ++ (List.replicate 15 cexF1).flatten)) := by
  rw [cexC_front, cexF1_shape]
  simp [-List.reduceReplicate]

/-- The compaction by one frame maps the full stale allocation to itself:
the front moves up one period and the stale tail re-creates the final
copy. -/
theorem cexC_compact : compact cexC (2 + 1 + 252 + 1) = cexC := by
  unfold compact
  rw [cexC_length]
  show cexC.drop 256 ++ cexC.drop 3840 = cexC
  have hd1 : cexC.drop 256 = (List.replicate 15 cexF1).flatten := by
    rw [cexC_front]
    exact List.drop_left' cexF1_length
  have hd2 : cexC.drop 3840 = cexF1 := by
    rw [cexC_back]
    exact List.drop_left' (by rw [flatten_replicate_length, cexF1_length])
  rw [hd1, hd2, ← cexC_back]

/-- One fixed-buffer iteration on the full stale allocation: it decodes
the repeated frame, the compaction restores the very same allocation, and
the cursor drops by 256 — whether or not the cursor exceeds the 4096
stored bytes. -/
theorem cexC_step (len : Nat) (hlen : 256 ≤ len) :
    parseStepFixed cexC len = .ok (some (cexD1, (cexC, len - 256))) := by
  have h2 : cexC.getD 2 0 = 252 := by rw [cexC_shape]; rfl
  have hpay : (cexC.drop 3).take 252 = 0 :: List.replicate 251 1 := by
    rw [cexC_shape]
    show ((0 :: List.replicate 251 1) ++
      ([crc8 (0 :: List.replicate 251 1)] ++ (List.replicate 15 cexF1).flatten)).take 252
      = 0 :: List.replicate 251 1
    have hlP : ((0 : Nat) :: List.replicate 251 1).length = 252 := by
      rw [List.length_cons, List.length_replicate]
    exact List.take_left' hlP
  have hps : parseStep cexC = .ok (some (decodeOf 0 (List.replicate 251 1),
      (List.replicate 15 cexF1).flatten)) := by
    rw [cexC_front, cexF1]
    exact parseStep_buildFrame 0 (List.replicate 251 1) _
      (by rw [List.length_replicate]; omega)
  obtain ⟨hb4, hm0, hm1, hcomp, hcrc, hfr, hrest⟩ := parseStep_some_facts hps
  rw [h2, hpay] at hcrc
  unfold parseStepFixed
  rw [hm0, hm1, h2, hpay, cexC_compact]
  rw [if_neg (by omega), if_neg (by simp), if_neg (by omega),
    if_neg (fun hcon => hcon hcrc), ← hcrc]
  simp [cexD1, decodeOf, -List.reduceReplicate]

/-- The stale parse loop: from the full stale allocation with cursor
`256 * m`, the loop replays the repeated frame `m` times and ends with the
unchanged allocation and cursor 0. -/
theorem cexC_run (m : Nat) : ∀ fuel, 256 * m ≤ fuel →
    parseFramesFixed fuel cexC (256 * m)
      = .ok (List.replicate m cexD1, (cexC, 0)) := by
  induction m with
  | zero =>
    intro fuel hf
    have hstep : parseStepFixed cexC 0 = .ok none := by
      unfold parseStepFixed
      rw [if_pos (by omega)]
    show parseFramesFixed fuel cexC 0 = .ok (List.replicate 0 cexD1, (cexC, 0))
    rw [parseFramesFixed_stuck fuel hstep]
    rfl
  | succ k ih =>
    intro fuel hf
    cases fuel with
    | zero => omega
    | succ f =>
      have hstep := cexC_step (256 * (k + 1)) (by omega)
      have hlen2 : 256 * (k + 1) - 256 = 256 * k := by omega
      rw [hlen2] at hstep
      rw [parseFramesFixed_cons f hstep, ih f (by omega)]
      simp [List.replicate_succ, -List.reduceReplicate]

/-- The faithful receive path on the overflow stream fed as one call: the
append truncates the seventeenth frame away, the cursor still counts its
256 bytes, and the parse loop replays the sixteenth stored frame from
stale cells — seventeen decoded frames, the last one wrong. -/
theorem cex_feed (init : List Nat) (hinit : init.length = 4096) :
    feedAllFixed ⟨init, 0⟩ [encodeAll cexFs]
      = .ok (List.replicate 17 cexD1, ⟨cexC, 0⟩) := by
  have hw : writeBytes init 0 (encodeAll cexFs) = cexC := by
    unfold writeBytes
    rw [List.take_zero, hinit, List.nil_append,
      List.drop_eq_nil_of_le (by rw [hinit, cexS_length]; omega),
      List.append_nil, Nat.sub_zero, cexS_take]
  have hrun : parseFramesFixed (0 + (encodeAll cexFs).length)
      (writeBytes init 0 (encodeAll cexFs))
      (0 + (encodeAll cexFs).length) = .ok (List.replicate 17 cexD1, (cexC, 0)) := by
    rw [hw, cexS_length]
    show parseFramesFixed (256 * 17) cexC (256 * 17) = _
    exact cexC_run 17 (256 * 17) (le_refl _)
  have hone : onResponseFixed ⟨init, 0⟩ (encodeAll cexFs)
      = .ok (List.replicate 17 cexD1, ⟨cexC, 0⟩) := by
    unfold onResponseFixed
    rw [show RecvBuffer.length ⟨init, 0⟩ = 0 from rfl,
      show RecvBuffer.buffer ⟨init, 0⟩ = init from rfl,
      hrun]
  unfold feedAllFixed
  rw [hone]
  rfl

/-- Every frame of the overflow stream is a valid command/parameter
pair. -/
theorem cexFs_valid : ∀ q ∈ cexFs, ValidSpec q := by
  intro q hq
  rw [cexFs, List.mem_append, List.mem_singleton] at hq
  rcases hq with hq | rfl
  · obtain rfl := List.eq_of_mem_replicate hq
    exact ⟨by norm_num, by simp [-List.reduceReplicate], fun b hb => by
      obtain rfl := List.eq_of_mem_replicate hb
      norm_num⟩
  · exact ⟨by norm_num, by simp [-List.reduceReplicate], fun b hb => by
      obtain rfl := List.eq_of_mem_replicate hb
      norm_num⟩

/-- The replayed decode differs from the true decode of the stream: the
seventeenth frame's parameters are 1s, not the sent 2s. -/
theorem cex_decode_ne :
    List.replicate 17 cexD1 ≠ cexFs.map fun q => decodeOf q.1 q.2 := by
  intro h
  have hmap : cexFs.map (fun q => decodeOf q.1 q.2)
      = List.replicate 16 cexD1 ++ [decodeOf 0 (List.replicate 251 2)] := by
    rw [cexFs, List.map_append, List.map_replicate]
    rfl
  rw [hmap, show (17 : Nat) = 16 + 1 from rfl, List.replicate_succ'] at h
  have h2 := List.append_cancel_left h
  have hfr : cexD1 = decodeOf 0 (List.replicate 251 2) := by
    injection h2
  have h3 : List.replicate 251 (1 : Nat) = List.replicate 251 2 :=
    congrArg Frame.parameters hfr
  rw [show (251 : Nat) = 250 + 1 from rfl, List.replicate_succ,
    List.replicate_succ] at h3
  injection h3 with h4 h5
  exact absurd h4 (by norm_num)

/-- **C2 counterexample** — the claim asserts chunk-boundary invariance of
the receive path for every finite sequence of valid frames with no size
proviso, feeding the whole concatenation at once included.  The receive
buffer is a fixed 4096-byte allocation and `Buffer.copy` silently
truncates, so from any 4096-cell allocation with an empty cursor, one
call carrying seventeen 256-byte valid frames (4352 bytes) loses the
seventeenth frame's bytes while the length cursor still advances by 4352:
the parser replays the sixteenth frame from stale cells and emits
seventeen frames whose last differs from the decoded sequence. -/
theorem claim_C2_counterexample :
    (∀ q ∈ cexFs, ValidSpec q) ∧
    (encodeAll cexFs).length = 4352 ∧
    (∀ init : List Nat, init.length = 4096 →
      feedAllFixed ⟨init, 0⟩ [encodeAll cexFs]
        = .ok (List.replicate 17 cexD1, ⟨cexC, 0⟩)) ∧
    List.replicate 17 cexD1 ≠ cexFs.map fun q => decodeOf q.1 q.2 :=
  ⟨cexFs_valid, cexS_length, cex_feed, cex_decode_ne⟩

/-- **C2 amended** — chunk-boundary invariance holds within the capacity
of the receive buffer: starting from a fresh 4096-cell allocation, for
every finite sequence of valid frames and every chunking of their
concatenation into calls of at most 3838 bytes (the allocation minus the
at most 258 buffered bytes of an incomplete trailing frame), the faithful
receive path emits exactly the ordered decoded frames with nothing left
buffered; the whole concatenation fed as one call behaves the same
whenever it fits the 4096-byte allocation; and stopping after any front
run of calls leaves exactly the incomplete trailing frame's bytes
buffered, from which the remaining calls complete the stream. -/
theorem claim_C2_amended (init : List Nat) (fs : List (Nat × List Nat))
    (chunks : List (List Nat))
    (hinit : init.length = 4096)
    (hv : ∀ q ∈ fs, ValidSpec q)
    (hflat : chunks.flatten = encodeAll fs)
    (hsize : ∀ c ∈ chunks, c.length ≤ 3838) :
    (∃ st : RecvBuffer, feedAllFixed ⟨init, 0⟩ chunks
        = .ok (fs.map (fun q => decodeOf q.1 q.2), st) ∧ st.length = 0) ∧
    ((encodeAll fs).length ≤ 4096 →
      ∃ st : RecvBuffer, feedAllFixed ⟨init, 0⟩ [encodeAll fs]
        = .ok (fs.map (fun q => decodeOf q.1 q.2), st) ∧ st.length = 0) ∧
    (∀ chunks1 chunks2, chunks = chunks1 ++ chunks2 →
      ∃ (gs hs : List (Nat × List Nat)) (p : List Nat) (st : RecvBuffer),
        fs = gs ++ hs ∧ chunks1.flatten = encodeAll gs ++ p ∧
        feedAllFixed ⟨init, 0⟩ chunks1
          = .ok (gs.map (fun q => decodeOf q.1 q.2), st) ∧
        st.length = p.length ∧ st.buffer.take st.length = p ∧
        ∃ st2 : RecvBuffer, feedAllFixed st chunks2
          = .ok (hs.map (fun q => decodeOf q.1 q.2), st2) ∧ st2.length = 0) := by
  refine ⟨?_, ?_, ?_⟩
  · have hfeed1 : feedAll [] chunks = .ok (fs.map fun q => decodeOf q.1 q.2, []) :=
      feedAll_valid chunks fs [] hv rfl (by rw [List.nil_append, hflat])
    have hfits1 : Fits [] chunks :=
      fits_of_valid chunks fs [] [] hv rfl
        (by rw [List.nil_append, List.append_nil, hflat]) hsize
    obtain ⟨st, hst, -, hst0, -, -⟩ :=
      feedAllFixed_sim chunks init [] 0 hinit rfl (by omega) rfl hfits1
        (fs.map fun q => decodeOf q.1 q.2) [] hfeed1
    exact ⟨st, hst, by simpa using hst0⟩
  · intro hle
    have hfeed2 : feedAll [] [encodeAll fs]
        = .ok (fs.map fun q => decodeOf q.1 q.2, []) :=
      feedAll_valid [encodeAll fs] fs [] hv rfl (by simp)
    have hfits2 : Fits [] [encodeAll fs] :=
      ⟨by simpa using hle, fun _ _ _ => True.intro⟩
    obtain ⟨st, hst, -, hst0, -, -⟩ :=
      feedAllFixed_sim [encodeAll fs] init [] 0 hinit rfl (by omega) rfl hfits2
        (fs.map fun q => decodeOf q.1 q.2) [] hfeed2
    exact ⟨st, hst, by simpa using hst0⟩
  · intro chunks1 chunks2 heq
    subst heq
    have hflat2 : chunks1.flatten ++ chunks2.flatten = encodeAll fs := by
      rw [← List.flatten_append]
      exact hflat
    obtain ⟨gs, hs, p, h1, h2, h3, h4⟩ :=
      feedAll_front chunks1 fs [] chunks2.flatten hv rfl
        (by rw [List.nil_append]; exact hflat2)
    rw [List.nil_append] at h2
    have hv2 : ∀ q ∈ hs, ValidSpec q := fun q hq =>
      hv q (by rw [h1]; exact List.mem_append_right gs hq)
    have hfits1 : Fits [] chunks1 :=
      fits_of_valid chunks1 fs [] chunks2.flatten hv rfl
        (by rw [List.nil_append]; exact hflat2)
        (fun c hc => hsize c (List.mem_append_left _ hc))
    obtain ⟨st, hst, hst4096, hstlen, hple, hstake⟩ :=
      feedAllFixed_sim chunks1 init [] 0 hinit rfl (by omega) rfl hfits1
        (gs.map fun q => decodeOf q.1 q.2) p h4
    have hcancel : p ++ chunks2.flatten = encodeAll hs := by
      have h5 : (encodeAll gs ++ p) ++ chunks2.flatten
          = encodeAll gs ++ encodeAll hs := by
        rw [← h2, hflat2, h1, encodeAll_append]
      rw [List.append_assoc] at h5
      exact List.append_cancel_left h5
    have hfeedR : feedAll p chunks2 = .ok (hs.map fun q => decodeOf q.1 q.2, []) :=
      feedAll_valid chunks2 hs p hv2 h3 hcancel
    have hfitsR : Fits p chunks2 :=
      fits_of_valid chunks2 hs p [] hv2 h3
        (by rw [List.append_nil]; exact hcancel)
        (fun c hc => hsize c (List.mem_append_right _ hc))
    obtain ⟨st2, hst2, -, hst2len, -, -⟩ :=
      feedAllFixed_sim chunks2 st.buffer p st.length hst4096 hstlen
        (by omega) hstake hfitsR (hs.map fun q => decodeOf q.1 q.2) [] hfeedR
    exact ⟨gs, hs, p, st, h1, h2, hst, hstlen, hstake,
      st2, hst2, by simpa using hst2len⟩

theorem claim_C2_amended_witness :
    (List.replicate 4096 0 : List Nat).length = 4096 ∧
    (∀ q ∈ [((1 : Nat), [(2 : Nat)]), ((3 : Nat), ([] : List Nat))], ValidSpec q) ∧
    [encodeAll [((1 : Nat), [(2 : Nat)]), ((3 : Nat), ([] : List Nat))]].flatten
      = encodeAll [((1 : Nat), [(2 : Nat)]), ((3 : Nat), ([] : List Nat))] ∧
    (∀ c ∈ [encodeAll [((1 : Nat), [(2 : Nat)]), ((3 : Nat), ([] : List Nat))]],
      c.length ≤ 3838) ∧
    (∃ st : RecvBuffer,
      feedAllFixed ⟨List.replicate 4096 0, 0⟩
          [encodeAll [((1 : Nat), [(2 : Nat)]), ((3 : Nat), ([] : List Nat))]]
        = .ok ([((1 : Nat), [(2 : Nat)]), ((3 : Nat), ([] : List Nat))].map
            (fun q => decodeOf q.1 q.2), st) ∧ st.length = 0) :=
  ⟨by simp [-List.reduceReplicate], by decide, by simp, by decide,
    (claim_C2_amended (List.replicate 4096 0)
      [((1 : Nat), [(2 : Nat)]), ((3 : Nat), ([] : List Nat))]
      [encodeAll [((1 : Nat), [(2 : Nat)]), ((3 : Nat), ([] : List Nat))]]
      (by simp [-List.reduceReplicate]) (by decide) (by simp) (by decide)).1⟩

/-- **C6** — Decoder error versus incomplete behaviour: a buffer of at
least 4 bytes whose first two bytes are not `0xAA 0x55` raises the fatal
protocol error; a fully buffered frame whose trailing checksum byte is not
the CRC-8 of its payload raises the fatal checksum error; a buffer shorter
than a complete frame (fewer than 4 bytes, or fewer than
`2 + 1 + length + 1`) raises nothing, extracts nothing, and keeps the
bytes. -/
theorem claim_C6_error_vs_incomplete :
    (∀ buf : List Nat, 4 ≤ buf.length →
      ¬(buf.getD 0 0 = 0xAA ∧ buf.getD 1 0 = 0x55) →
      parseFramesAux buf = .error .protocol) ∧
    (∀ (payload : List Nat) (chk : Nat), payload.length ≤ 255 → chk < 256 →
      chk ≠ crc8 payload →
      parseFramesAux (0xAA :: 0x55 :: payload.length :: (payload ++ [chk]))
        = .error .checksum) ∧
    (∀ buf : List Nat,
      (buf.length < 4 ∨
        (buf.getD 0 0 = 0xAA ∧ buf.getD 1 0 = 0x55 ∧
          buf.length < 2 + 1 + buf.getD 2 0 + 1)) →
      parseFramesAux buf = .ok ([], buf)) := by
  refine ⟨?_, ?_, ?_⟩
  · intro buf h4 hmagic
    apply parseFramesAux_error
    unfold parseStep
    rw [if_neg (by omega), if_pos (by tauto)]
  · intro payload chk hlen hbyte hne
    apply parseFramesAux_error
    have h0 : (0xAA :: 0x55 :: payload.length :: (payload ++ [chk])).getD 0 0
        = 0xAA := rfl
    have h1 : (0xAA :: 0x55 :: payload.length :: (payload ++ [chk])).getD 1 0
        = 0x55 := rfl
    have h2 : (0xAA :: 0x55 :: payload.length :: (payload ++ [chk])).getD 2 0
        = payload.length := rfl
    have hL : (0xAA :: 0x55 :: payload.length :: (payload ++ [chk])).length
        = payload.length + 4 := by
      simp
    have htake : ((0xAA :: 0x55 :: payload.length ::
        (payload ++ [chk])).drop 3).take payload.length = payload := by
      have : (0xAA :: 0x55 :: payload.length :: (payload ++ [chk])).drop 3
          = payload ++ [chk] := by simp
      rw [this, List.take_left]
    have hchk : (0xAA :: 0x55 :: payload.length ::
        (payload ++ [chk])).getD (2 + 1 + payload.length) 0 = chk := by
      have hsplit : (0xAA :: 0x55 :: payload.length :: (payload ++ [chk]))
          = ([0xAA, 0x55, payload.length] ++ payload) ++ [chk] := by simp
      rw [hsplit, List.getD_append_right _ _ 0 _ (by simp; omega)]
      have hidx : 2 + 1 + payload.length
          - ([(0xAA : Nat), 0x55, payload.length] ++ payload).length = 0 := by
        simp
        omega
      rw [hidx]
      rfl
    unfold parseStep
    rw [h0, h1, h2, hL, htake, hchk,
      if_neg (by omega), if_neg (by simp), if_neg (by omega),
      if_pos (by omega)]
  · intro buf hshort
    apply parseFramesAux_stuck
    unfold parseStep
    rcases hshort with h4 | ⟨hm0, hm1, hinc⟩
    · rw [if_pos h4]
    · by_cases h4 : buf.length < 4
      · rw [if_pos h4]
      · rw [if_neg h4, if_neg (by rw [hm0, hm1]; simp), if_pos hinc]

theorem claim_C6_error_vs_incomplete_witness :
    parseFramesAux [0, 0, 0, 0] = .error .protocol ∧
    parseFramesAux (0xAA :: 0x55 :: [(1 : Nat)].length :: ([(1 : Nat)] ++ [0]))
      = .error .checksum ∧
    parseFramesAux [0xAA] = .ok ([], [0xAA]) :=
  ⟨claim_C6_error_vs_incomplete.1 [0, 0, 0, 0] (by decide) (by decide),
   claim_C6_error_vs_incomplete.2.1 [1] 0 (by decide) (by decide) (by decide),
   claim_C6_error_vs_incomplete.2.2 [0xAA] (by decide)⟩

/-- **C3 counterexample** — the claim says `buildFrame` fails with an
`EncodingError` for more than 254 parameter bytes.  The source has no
length check and no failure path at all: with 255 parameter bytes it
returns a 260-byte frame whose 1-byte length field has silently wrapped to
`(1 + 255) % 256 = 0`. -/
theorem claim_C3_counterexample :
    (buildFrame 0 (List.replicate 255 0)).length = 260 ∧
    (buildFrame 0 (List.replicate 255 0)).getD 2 0 = 0 := by
  constructor
  · rw [buildFrame_length, List.length_replicate]
  · show (0 % 256 :: List.replicate 255 0).length % 256 = 0
    rw [List.length_cons, List.length_replicate]

/-- **C3 amended** — `buildFrame` never fails: for every parameter
sequence it returns a frame of `length + 5` bytes whose length field holds
`(1 + length) mod 256`, so for more than 254 parameter bytes the length
field wraps around instead of an `EncodingError` being raised. -/
theorem claim_C3_amended (cmd : Nat) (params : List Nat) :
    (buildFrame cmd params).length = params.length + 5 ∧
    (buildFrame cmd params).getD 2 0 = (params.length + 1) % 256 :=
  ⟨buildFrame_length cmd params, rfl⟩

/-! ## Request/response correlator

`L8.prototype.sendFrame(buffer, expectedResponse, handleError, fn)`
(src/Library/MatrixBuilder.js, lines 663-737) registers, after a
successful write, an `onReceive` listener on the `frameReceived` event
(lines 698-734).  The listener first tests the error condition, then the
expected-response condition; reaching the end of the chain removes the
listener and settles the completion, while the two `return` statements
keep listening.

The numeric SLCP command codes (`SLCP.CMD.OK`, `SLCP.CMD.ERR`) come from
`src/Library/SLCP.js`, which is not under `src/`; the codes are therefore
passed to the model as explicit `cmdERR`/`cmdOK` arguments. -/

/-- The `expectedResponse` argument of `sendFrame` when a response is
awaited: `true` (generic OK acknowledgement) or a `{command, parameters?}`
descriptor. -/
inductive Expected where
  | generic
  | shape (command : Nat) (parameters : Option (List Nat))
deriving DecidableEq, Repr

/-- The `handleError` argument of `sendFrame`: `true` (generic `CMD_ERR`
echoing the sent command byte) or a `{command, parameters?}` descriptor. -/
inductive ErrSpec where
  | generic
  | shape (command : Nat) (parameters : Option (List Nat))
deriving DecidableEq, Repr

/-- What the `onReceive` listener does with one incoming frame:
settle the completion with an `L8Error`, settle it with the frame (both
deregister the listener), or ignore the frame and keep listening. -/
inductive RecvAction where
  | settleError
  | settleFrame
  | skip
deriving DecidableEq, Repr

/-- The error condition at the top of `onReceive` (the first `if`):
generic mode matches `CMD_ERR` whose first parameter byte echoes the sent
command byte `buffer[3]`; descriptor mode matches the given command and,
when given, the exact parameter bytes. -/
def errMatches (cmdERR : Nat) (sentBuf : List Nat) (handleErr : ErrSpec)
    (frame : Frame) : Bool :=
  match handleErr with
  | .generic =>
    frame.command == some cmdERR && frame.parameters.head? == sentBuf[3]?
  | .shape c (some ps) => frame.command == some c && frame.parameters == ps
  | .shape c none => frame.command == some c

/-- Embeds the `onReceive` closure of `sendFrame`: error test first, then
the expected-response test with its early `return`s (= `skip`). -/
def onReceive (cmdERR cmdOK : Nat) (sentBuf : List Nat)
    (expected : Expected) (handleErr : ErrSpec) (frame : Frame) : RecvAction :=
  if errMatches cmdERR sentBuf handleErr frame then .settleError
  else
    match expected with
    | .generic =>
      if frame.command != some cmdOK || frame.parameters.head? != sentBuf[3]?
      then .skip
      else .settleFrame
    | .shape c pso =>
      if frame.command != some c then .skip
      else
        match pso with
        | some ps => if frame.parameters != ps then .skip else .settleFrame
        | none => .settleFrame

/-- The "expected acknowledgement shape" in the words of the claim: for
the generic acknowledgement, command equal to `CMD_OK` and first parameter
byte equal to the sent command byte; for a specific expectation, command
equal to the expected command and, when expected parameters are given,
parameter bytes equal to them. -/
def ackMatches (cmdOK : Nat) (sentBuf : List Nat) (expected : Expected)
    (frame : Frame) : Bool :=
  match expected with
  | .generic =>
    frame.command == some cmdOK && frame.parameters.head? == sentBuf[3]?
  | .shape c (some ps) => frame.command == some c && frame.parameters == ps
  | .shape c none => frame.command == some c

/-- **C5 counterexample** — the claim says a frame that does not match the
expected shape is ignored and does not settle the expectation.  With
`handleError = true`, an incoming `CMD_ERR` frame echoing the sent command
byte does not match the acknowledgement shape, yet it settles the
completion (with an error) instead of being skipped. -/
theorem claim_C5_counterexample :
    ackMatches 100 (buildFrame 5 []) Expected.generic
      ⟨some 21, [5], 0, 2, [21, 5]⟩ = false ∧
    onReceive 21 100 (buildFrame 5 []) Expected.generic ErrSpec.generic
      ⟨some 21, [5], 0, 2, [21, 5]⟩ = RecvAction.settleError ∧
    onReceive 21 100 (buildFrame 5 []) Expected.generic ErrSpec.generic
      ⟨some 21, [5], 0, 2, [21, 5]⟩ ≠ RecvAction.skip := by
  decide

/-- **C5 amended** — a frame matching neither the error condition nor the
expected acknowledgement shape is ignored and keeps the listener; a frame
matching the error condition settles the completion with an error; a frame
matching the acknowledgement shape but not the error condition settles it
with the frame (settling deregisters the listener). -/
theorem claim_C5_amended (cmdERR cmdOK : Nat) (sentBuf : List Nat)
    (expected : Expected) (handleErr : ErrSpec) (frame : Frame) :
    (errMatches cmdERR sentBuf handleErr frame = false →
      ackMatches cmdOK sentBuf expected frame = false →
      onReceive cmdERR cmdOK sentBuf expected handleErr frame = .skip) ∧
    (errMatches cmdERR sentBuf handleErr frame = true →
      onReceive cmdERR cmdOK sentBuf expected handleErr frame = .settleError) ∧
    (errMatches cmdERR sentBuf handleErr frame = false →
      ackMatches cmdOK sentBuf expected frame = true →
      onReceive cmdERR cmdOK sentBuf expected handleErr frame = .settleFrame) := by
  refine ⟨?_, ?_, ?_⟩
  · intro he ha
    cases expected with
    | generic =>
      simp only [ackMatches] at ha
      simp_all [onReceive]
    | shape c pso =>
      cases pso <;> simp_all [onReceive, ackMatches]
  · intro he
    simp [onReceive, he]
  · intro he ha
    cases expected with
    | generic =>
      simp only [ackMatches] at ha
      simp_all [onReceive]
    | shape c pso =>
      cases pso <;> simp_all [onReceive, ackMatches]

theorem claim_C5_amended_witness :
    errMatches 21 (buildFrame 5 []) ErrSpec.generic ⟨some 7, [], 0, 1, [7]⟩
      = false ∧
    ackMatches 100 (buildFrame 5 []) Expected.generic ⟨some 7, [], 0, 1, [7]⟩
      = false ∧
    onReceive 21 100 (buildFrame 5 []) Expected.generic ErrSpec.generic
      ⟨some 7, [], 0, 1, [7]⟩ = RecvAction.skip :=
  ⟨by decide, by decide,
    (claim_C5_amended 21 100 (buildFrame 5 []) Expected.generic ErrSpec.generic
      ⟨some 7, [], 0, 1, [7]⟩).1 (by decide) (by decide)⟩

/-! ## Colors and LED commands

`L8.prototype.encodeBGRSingleColor` (src/Library/MatrixBuilder.js lines
924-937), `encodeBGRMatrixColor` (lines 978-990), `setLED` (lines
1005-1023) and `setMatrix` (lines 1057-1071).  Colors are `{r, g, b}`
objects whose channels the source validates into [0, 15], throwing
`RangeError` otherwise; the channels are modelled as integers. -/

/-- A JavaScript `{r, g, b}` color object. -/
structure Color where
  r : Int
  g : Int
  b : Int
deriving DecidableEq, Repr

/-- The `RangeError` thrown by the validation code, modelled as an
`Except` error so that an error provably produces no frame (in the source
the throw happens before `sendFrame`, so nothing reaches the transport). -/
inductive JsError where
  | rangeError
deriving DecidableEq, Repr

instance : DecidableEq (Except JsError (List Nat)) := fun a b =>
  match a, b with
  | .error e, .error f => decidable_of_iff (e = f) (by simp)
  | .ok x, .ok y => decidable_of_iff (x = y) (by simp)
  | .error _, .ok _ => isFalse (by simp)
  | .ok _, .error _ => isFalse (by simp)

/-- Embeds `encodeBGRSingleColor`: validate each channel into [0, 15],
then return the 3-byte `[b, g, r]` buffer. -/
def encodeBGRSingleColor (c : Color) : Except JsError (List Nat) :=
  if c.r < 0 ∨ 15 < c.r ∨ c.g < 0 ∨ 15 < c.g ∨ c.b < 0 ∨ 15 < c.b then
    .error .rangeError
  else .ok [c.b.toNat, c.g.toNat, c.r.toNat]

/-- Embeds `encodeBGRMatrixColor`: validate each channel into [0, 15],
then return the packed 2-byte `[b, (g << 4) | r]` buffer. -/
def encodeBGRMatrixColor (c : Color) : Except JsError (List Nat) :=
  if c.r < 0 ∨ 15 < c.r ∨ c.g < 0 ∨ 15 < c.g ∨ c.b < 0 ∨ 15 < c.b then
    .error .rangeError
  else .ok [c.b.toNat, c.g.toNat <<< 4 ||| c.r.toNat]

/-- The packed 2-byte matrix encoding of a color (byte 0 the blue channel,
byte 1 green shifted into the high nibble or-ed with red). -/
def matrixColorBytes (c : Color) : List Nat :=
  [c.b.toNat, c.g.toNat <<< 4 ||| c.r.toNat]

/-- Embeds the parameter-buffer construction of `setMatrix`: a `RangeError`
for arrays whose length is not 64 (thrown before anything is encoded or
sent), else the concatenation of the per-pixel 2-byte encodings in input
(row-major, top-left first) order; encoding stops at the first invalid
color, as the `throw` inside `Array.prototype.map` does. -/
def setMatrixParams (matrix : List Color) : Except JsError (List Nat) :=
  if matrix.length ≠ 64 then .error .rangeError
  else (matrix.mapM encodeBGRMatrixColor).map List.flatten

/-- Embeds `setLED` up to the frame handed to `sendFrame`: validate the
coordinates (throwing `RangeError`), encode the color, build the parameter
buffer, wrap it with `buildFrame`.  The source calls `Buffer.concat` with
total length `2 + 4 = 6` although the coordinate and color buffers hold
only 5 content bytes; node allocates all 6 bytes and leaves the sixth
uninitialised, so the model takes that byte's value as the extra argument
`uninit`.  The SLCP code `CMD.L8_LED_SET` comes from `src/Library/SLCP.js`
which is not under `src/`, so it is passed as `cmdLedSet`. -/
def setLEDFrame (cmdLedSet : Nat) (x y : Int) (c : Color) (uninit : Nat) :
    Except JsError (List Nat) :=
  if x < 0 ∨ 7 < x ∨ y < 0 ∨ 7 < y then .error .rangeError
  else
    (encodeBGRSingleColor c).map fun col =>
      buildFrame cmdLedSet ([y.toNat, x.toNat] ++ col ++ [uninit])

theorem mapM_encodeBGRMatrixColor_ok (l : List Color)
    (hv : ∀ c ∈ l, 0 ≤ c.r ∧ c.r ≤ 15 ∧ 0 ≤ c.g ∧ c.g ≤ 15 ∧
      0 ≤ c.b ∧ c.b ≤ 15) :
    l.mapM encodeBGRMatrixColor = .ok (l.map matrixColorBytes) := by
  induction l with
  | nil => rfl
  | cons c l ih =>
    have hc := hv c (List.mem_cons_self c l)
    have henc : encodeBGRMatrixColor c = .ok (matrixColorBytes c) := by
      unfold encodeBGRMatrixColor
      rw [if_neg (by omega)]
      rfl
    rw [List.mapM_cons, henc, ih fun d hd => hv d (List.mem_cons_of_mem c hd)]
    rfl

theorem flatten_matrixColorBytes_length (l : List Color) :
    ((l.map matrixColorBytes).flatten).length = 2 * l.length := by
  induction l with
  | nil => rfl
  | cons c l ih =>
    simp [matrixColorBytes, ih]
    omega

/-- **C7** — `setMatrix` builds its parameter buffer as the concatenation,
in row-major top-left-first order, of 2-byte pixel encodings with byte 0
the blue channel and byte 1 `(g << 4) | r`; the buffer has 128 bytes, and
for 64 copies of `{r:15, g:0, b:0}` every even-indexed byte is `0x00` and
every odd-indexed byte is `0x0F`. -/
theorem claim_C7_matrix_encoding :
    (∀ matrix : List Color, matrix.length = 64 →
      (∀ c ∈ matrix, 0 ≤ c.r ∧ c.r ≤ 15 ∧ 0 ≤ c.g ∧ c.g ≤ 15 ∧
        0 ≤ c.b ∧ c.b ≤ 15) →
      setMatrixParams matrix = .ok ((matrix.map matrixColorBytes).flatten) ∧
      ((matrix.map matrixColorBytes).flatten).length = 128) ∧
    (setMatrixParams (List.replicate 64 ⟨15, 0, 0⟩)
        = .ok (List.flatten (List.replicate 64 [0x00, 0x0F])) ∧
      ∀ i, i < 128 →
        (List.flatten (List.replicate 64 [0x00, 0x0F])).getD i 0
          = if i % 2 = 0 then 0x00 else 0x0F) := by
  constructor
  · intro matrix h64 hv
    constructor
    · unfold setMatrixParams
      rw [if_neg (by omega), mapM_encodeBGRMatrixColor_ok matrix hv]
      rfl
    · rw [flatten_matrixColorBytes_length, h64]
  · constructor
    · decide
    · decide

theorem claim_C7_matrix_encoding_witness :
    (List.replicate 64 (Color.mk 15 0 0)).length = 64 ∧
    (∀ c ∈ List.replicate 64 (Color.mk 15 0 0),
      0 ≤ c.r ∧ c.r ≤ 15 ∧ 0 ≤ c.g ∧ c.g ≤ 15 ∧ 0 ≤ c.b ∧ c.b ≤ 15) ∧
    setMatrixParams (List.replicate 64 (Color.mk 15 0 0))
      = .ok (((List.replicate 64 (Color.mk 15 0 0)).map matrixColorBytes).flatten) ∧
    (((List.replicate 64 (Color.mk 15 0 0)).map matrixColorBytes).flatten).length
      = 128 :=
  ⟨by decide, by decide,
    (claim_C7_matrix_encoding.1 (List.replicate 64 (Color.mk 15 0 0))
      (by decide) (by decide))⟩

/-- **C9** — synchronous input validation: `setLED` yields a `RangeError`
(and hence no frame ever reaches `sendFrame`) for any x or y outside
[0, 7] and for any color channel outside [0, 15]; `setMatrix` yields a
`RangeError` for any input array whose length is not 64. -/
theorem claim_C9_validation :
    (∀ (cmd : Nat) (x y : Int) (c : Color) (u : Nat),
      (x < 0 ∨ 7 < x ∨ y < 0 ∨ 7 < y) →
      setLEDFrame cmd x y c u = .error .rangeError) ∧
    (∀ (cmd : Nat) (x y : Int) (c : Color) (u : Nat),
      (c.r < 0 ∨ 15 < c.r ∨ c.g < 0 ∨ 15 < c.g ∨ c.b < 0 ∨ 15 < c.b) →
      setLEDFrame cmd x y c u = .error .rangeError) ∧
    (∀ matrix : List Color, matrix.length ≠ 64 →
      setMatrixParams matrix = .error .rangeError) := by
  refine ⟨?_, ?_, ?_⟩
  · intro cmd x y c u h
    unfold setLEDFrame
    rw [if_pos h]
  · intro cmd x y c u h
    unfold setLEDFrame
    split
    · rfl
    · unfold encodeBGRSingleColor
      rw [if_pos h]
      rfl
  · intro matrix h
    unfold setMatrixParams
    rw [if_pos h]

theorem claim_C9_validation_witness :
    setLEDFrame 68 8 0 ⟨0, 0, 0⟩ 0 = .error .rangeError ∧
    setLEDFrame 68 0 0 ⟨16, 0, 0⟩ 0 = .error .rangeError ∧
    setMatrixParams [] = .error .rangeError :=
  ⟨claim_C9_validation.1 68 8 0 ⟨0, 0, 0⟩ 0 (by decide),
   claim_C9_validation.2.1 68 0 0 ⟨16, 0, 0⟩ 0 (by decide),
   claim_C9_validation.2.2 [] (by decide)⟩

/-- **C10** — the claim says the frame sent by `setLED` carries the 5
parameter bytes `[y, x, b, g, r]`.  Evaluating the embedding at
`setLED(3, 5, {r:15, g:0, b:0})`: the frame handed to `sendFrame` carries
a 6-byte parameter buffer whose first five bytes are `[y, x, b, g, r]`
and whose sixth byte is the uninitialised filler `u` that node's
`Buffer.concat` leaves when given total length `2 + 4 = 6` for 5 content
bytes. -/
theorem claim_C10_setLED_params (cmd u : Nat) :
    setLEDFrame cmd 3 5 ⟨15, 0, 0⟩ u
      = .ok (buildFrame cmd [5, 3, 0, 0, 15, u]) ∧
    [(5 : Nat), 3, 0, 0, 15, u].take 5 = [5, 3, 0, 0, 15] ∧
    [(5 : Nat), 3, 0, 0, 15, u].length = 6 :=
  ⟨rfl, rfl, rfl⟩

/-! ## Acceleration decoding

The response callback of `L8.prototype.getAcceleration`
(src/Library/MatrixBuilder.js, lines 844-896). -/

/-- The `lying` field (JS strings `'up'` / `'upside_down'`). -/
inductive Lying where
  | up
  | upside_down
deriving DecidableEq, Repr

/-- The `orientation` field: the JS code maps codes 1/2/5/6 to strings and
passes any other code through as the raw number. -/
inductive Orient where
  | up
  | down
  | left
  | right
  | raw (code : Nat)
deriving DecidableEq, Repr

/-- The decoded acceleration record handed to the callback. -/
structure Acceleration where
  x : Nat
  y : Nat
  z : Nat
  lying : Lying
  orientation : Orient
  tap : Bool
  shake : Bool
deriving DecidableEq, Repr

/-- Embeds the decoding of a `CMD_L8_ACC_RESPONSE` parameter buffer inside
`getAcceleration`. -/
def decodeAcceleration (params : List Nat) : Acceleration where
  x := params.getD 0 0
  y := params.getD 1 0
  z := params.getD 2 0
  lying := if params.getD 3 0 = 2 then .up else .upside_down
  orientation :=
    match params.getD 4 0 with
    | 1 => .up
    | 2 => .down
    | 5 => .left
    | 6 => .right
    | c => .raw c
  tap := params.getD 5 0 == 1
  shake := params.getD 6 0 != 0

/-- **C8** — acceleration decoding: x, y, z raw from bytes 0..2; `lying`
up exactly when byte 3 is 2, upside_down otherwise; orientation mapped
from byte 4 via {1: up, 2: down, 5: left, 6: right} with any other code
passed through raw; `tap` true exactly when byte 5 is 1; `shake` true
exactly when byte 6 is nonzero; and `[10,20,30,2,1,1,1]` decodes to
`{x:10, y:20, z:30, lying:up, orientation:up, tap:true, shake:true}`. -/
theorem claim_C8_acceleration (params : List Nat) (h : params.length = 7) :
    (decodeAcceleration params).x = params.getD 0 0 ∧
    (decodeAcceleration params).y = params.getD 1 0 ∧
    (decodeAcceleration params).z = params.getD 2 0 ∧
    ((decodeAcceleration params).lying = .up ↔ params.getD 3 0 = 2) ∧
    (params.getD 3 0 ≠ 2 →
      (decodeAcceleration params).lying = .upside_down) ∧
    (params.getD 4 0 = 1 → (decodeAcceleration params).orientation = .up) ∧
    (params.getD 4 0 = 2 → (decodeAcceleration params).orientation = .down) ∧
    (params.getD 4 0 = 5 → (decodeAcceleration params).orientation = .left) ∧
    (params.getD 4 0 = 6 → (decodeAcceleration params).orientation = .right) ∧
    (params.getD 4 0 ∉ [1, 2, 5, 6] →
      (decodeAcceleration params).orientation = .raw (params.getD 4 0)) ∧
    ((decodeAcceleration params).tap = true ↔ params.getD 5 0 = 1) ∧
    ((decodeAcceleration params).shake = true ↔ params.getD 6 0 ≠ 0) ∧
    decodeAcceleration [10, 20, 30, 2, 1, 1, 1]
      = ⟨10, 20, 30, .up, .up, true, true⟩ := by
  refine ⟨rfl, rfl, rfl, ?_, ?_, ?_, ?_, ?_, ?_, ?_, ?_, ?_, by decide⟩
  · unfold decodeAcceleration
    constructor
    · intro hl
      by_contra hne
      rw [if_neg hne] at hl
      exact absurd hl (by simp)
    · intro h2
      rw [if_pos h2]
  · intro hne
    unfold decodeAcceleration
    rw [if_neg hne]
  · intro h4
    unfold decodeAcceleration
    rw [h4]
  · intro h4
    unfold decodeAcceleration
    rw [h4]
  · intro h4
    unfold decodeAcceleration
    rw [h4]
  · intro h4
    unfold decodeAcceleration
    rw [h4]
  · intro hni
    unfold decodeAcceleration
    split
    all_goals simp_all
  · unfold decodeAcceleration
    simp
  · unfold decodeAcceleration
    simp

theorem claim_C8_acceleration_witness :
    [(10 : Nat), 20, 30, 2, 1, 1, 1].length = 7 ∧
    decodeAcceleration [10, 20, 30, 2, 1, 1, 1]
      = ⟨10, 20, 30, .up, .up, true, true⟩ :=
  ⟨by decide,
    (claim_C8_acceleration [10, 20, 30, 2, 1, 1, 1]
      (by decide)).2.2.2.2.2.2.2.2.2.2.2.2⟩

/-! ## Grid builder (src/Library/GridBuilder.js) -/

/-- One grid segment: its position, and the placement index of the L8
device handle stored with it (the handles themselves are opaque). -/
structure Segment where
  x : Int
  y : Int
  dev : Nat
deriving DecidableEq, Repr

/-- Embeds `GridBuilder.prototype.moveGrid_` (lines 37-42). -/
def moveGrid (dx dy : Int) (g : List Segment) : List Segment :=
  g.map fun s => { s with x := s.x + dx, y := s.y + dy }

/-- Embeds `GridBuilder.prototype.addToGrid_` (lines 44-49): pushes a new
segment at position (0, 0). -/
def addToGrid (dev : Nat) (g : List Segment) : List Segment :=
  g ++ [{ x := 0, y := 0, dev := dev }]

/-- The four directional composition methods. -/
inductive Dir where
  | left
  | right
  | top
  | bottom
deriving DecidableEq, Repr

/-- Embeds `left/right/top/bottom` (lines 8-30): shift the whole existing
layout by ±8 on one axis, then add the new device at the origin. -/
def applyDir (g : List Segment) (d : Dir) (dev : Nat) : List Segment :=
  match d with
  | .left => addToGrid dev (moveGrid 8 0 g)
  | .right => addToGrid dev (moveGrid (-8) 0 g)
  | .top => addToGrid dev (moveGrid 0 8 g)
  | .bottom => addToGrid dev (moveGrid 0 (-8) g)

/-- A grid built by the constructor (initial device at (0, 0), lines 3-6)
followed by a sequence of directional compositions; devices are numbered
in placement order. -/
def buildGrid (dirs : List Dir) : List Segment :=
  (dirs.foldl (fun st d => (applyDir st.1 d st.2, st.2 + 1))
    ([⟨0, 0, 0⟩], 1)).1

/-- The scan of `GridBuilder.prototype.normalize_` (lines 52-58): starting
from the first segment, replace the running candidate whenever a segment
has a smaller x **or** a smaller y than the candidate. -/
def selectTopLeft (g : List Segment) (tl : Segment) : Segment :=
  g.foldl (fun tl s => if s.x < tl.x ∨ s.y < tl.y then s else tl) tl

/-- Embeds `GridBuilder.prototype.normalize_` (lines 51-61): translate the
whole grid by the negated position of the selected segment.  (On an empty
grid the source would dereference `undefined`; the builder never produces
one.) -/
def normalize : List Segment → List Segment
  | [] => []
  | s0 :: rest =>
    moveGrid (-(selectTopLeft (s0 :: rest) s0).x)
      (-(selectTopLeft (s0 :: rest) s0).y) (s0 :: rest)

/-- **C4** — the claim says every directional composition normalizes to
minimum segment coordinates (0, 0).  Building `bottom` then `left` and
normalizing leaves the segments at (8, -8), (8, 0), (0, 0): the minimum y
is -8, not 0, because the or-comparison scan settles on the last segment
(0, 0), which has the smallest x, even though the first segment has a
smaller y. -/
theorem claim_C4_normalize_eval :
    normalize (buildGrid [Dir.bottom, Dir.left])
      = [⟨8, -8, 0⟩, ⟨8, 0, 1⟩, ⟨0, 0, 2⟩] ∧
    (normalize (buildGrid [Dir.bottom, Dir.left])).map Segment.y
      = [-8, 0, 0] ∧
    ∃ s ∈ normalize (buildGrid [Dir.bottom, Dir.left]), s.y = -8 := by
  refine ⟨by decide, by decide, ⟨⟨8, -8, 0⟩, by decide⟩⟩

end L8Spec
